import Mathlib

/-!
# Text input model

A shallow embedding of `library/common/internal/text_input_model.cc`.

* `std::u32string` is a `List Nat` (one `Nat` per `char32_t` value).
* An iterator into `text_` is its offset from `text_.begin()`, an `Int`:
  `it++` adds one, `it--` subtracts one (nothing is clamped, so walking off
  either end of the buffer shows up as an offset outside `[0, size]`).
* A member function becomes a function on the model; one that returns a value
  returns the value paired with the successor model.
-/

namespace flutter_desktop_embedding

/-! ## `std::u32string` members used by the model -/

/-- Offset of `text.begin()`. -/
def u32_begin (_text : List Nat) : Int := 0

/-- Offset of `text.end()`. -/
def u32_end (text : List Nat) : Int := (text.length : Int)

/-- Contents after `text.erase(first, last)`: the elements of `[first, last)`
are removed. The returned iterator is `first`. -/
def u32_erase (text : List Nat) (first last : Int) : List Nat :=
  text.take first.toNat ++ text.drop last.toNat

/-- Contents after `text.insert(pos, c)`. The returned iterator is `pos`. -/
def u32_insert (text : List Nat) (pos : Int) (c : Nat) : List Nat :=
  text.take pos.toNat ++ c :: text.drop pos.toNat

/-- Contents after `text.insert(pos, first, last)` where `[first, last)` is the
whole of `run`. The returned iterator is `pos`. -/
def u32_insert_range (text : List Nat) (pos : Int) (run : List Nat) : List Nat :=
  text.take pos.toNat ++ run ++ text.drop pos.toNat

/-- The string `std::u32string(first, last)` built from an iterator range of
`text`. -/
def u32_range (text : List Nat) (first last : Int) : List Nat :=
  (text.drop first.toNat).take (last.toNat - first.toNat)

/-! ## `std::wstring_convert<std::codecvt_utf8<int32_t>, int32_t>`

The converter is a standard-library object, not code of this repository; the
model sees it only through `from_bytes` and `to_bytes`, so the operations take
it as a parameter and the results below hold for every converter. A conversion
that fails throws `std::range_error`, modelled as `none`. Bytes are `Nat`s
below 256. `codecvt_utf8` is the UTF-8 instance, used for concrete inputs. -/

/-- The two conversions of a `std::wstring_convert` object. -/
structure WStringConvert where
  /-- Bytes to code units; `none` when the library throws. -/
  from_bytes : List Nat → Option (List Nat)
  /-- Code units to bytes; `none` when the library throws. -/
  to_bytes : List Nat → Option (List Nat)

/-- True for a UTF-8 continuation byte `10xxxxxx`. -/
def is_cont (b : Nat) : Bool := 0x80 ≤ b && b < 0xC0

/-- Modelled from the spec: the decoding done by `std::codecvt_utf8<int32_t>`
is standard-library code, not among the sources; the spec names it UTF-8
decoding of a byte string into codepoints. This is UTF-8 as RFC 3629 defines
it: shortest form only, no surrogates, nothing above U+10FFFF. Anything else
is reported as an error here; libraries differ on malformed input (some drop a
truncated tail instead of throwing), which is why the operations take the
converter as a parameter. `fuel` bounds the number of scalar values read; the
length of the input always suffices (`utf8_decode_accepts`). -/
def utf8_decode : Nat → List Nat → Option (List Nat)
  | _, [] => some []
  | 0, _ :: _ => none
  | fuel + 1, c1 :: rest =>
    if c1 < 0x80 then
      (utf8_decode fuel rest).map (List.cons c1)
    else if c1 < 0xC2 then none
    else if c1 < 0xE0 then
      match rest with
      | c2 :: rest2 =>
        if is_cont c2 then
          (utf8_decode fuel rest2).map (List.cons ((c1 - 0xC0) * 0x40 + (c2 - 0x80)))
        else none
      | _ => none
    else if c1 < 0xF0 then
      match rest with
      | c2 :: c3 :: rest3 =>
        if is_cont c2 && is_cont c3
            && !(c1 == 0xE0 && c2 < 0xA0) && !(c1 == 0xED && 0xA0 ≤ c2) then
          (utf8_decode fuel rest3).map
            (List.cons ((c1 - 0xE0) * 0x1000 + (c2 - 0x80) * 0x40 + (c3 - 0x80)))
        else none
      | _ => none
    else if c1 < 0xF5 then
      match rest with
      | c2 :: c3 :: c4 :: rest4 =>
        if is_cont c2 && is_cont c3 && is_cont c4
            && !(c1 == 0xF0 && c2 < 0x90) && !(c1 == 0xF4 && 0x90 ≤ c2) then
          (utf8_decode fuel rest4).map
            (List.cons ((c1 - 0xF0) * 0x40000 + (c2 - 0x80) * 0x1000 + (c3 - 0x80) * 0x40
              + (c4 - 0x80)))
        else none
      | _ => none
    else none

/-- Modelled from the spec: the encoding done by `std::codecvt_utf8<int32_t>`
is standard-library code, not among the sources; the spec names it UTF-8
encoding of codepoints. One scalar value gives one to four bytes; a surrogate
or a value above U+10FFFF is an error. -/
def utf8_encode_one (c : Nat) : Option (List Nat) :=
  if c < 0x80 then some [c]
  else if c < 0x800 then some [0xC0 + c / 0x40, 0x80 + c % 0x40]
  else if c < 0x10000 then
    if 0xD800 ≤ c && c < 0xE000 then none
    else some [0xE0 + c / 0x1000, 0x80 + c / 0x40 % 0x40, 0x80 + c % 0x40]
  else if c < 0x110000 then
    some [0xF0 + c / 0x40000, 0x80 + c / 0x1000 % 0x40, 0x80 + c / 0x40 % 0x40,
      0x80 + c % 0x40]
  else none

/-- Modelled from the spec: the UTF-8 encoding of a sequence of scalar values,
one after the other (see `utf8_encode_one`). -/
def utf8_encode : List Nat → Option (List Nat)
  | [] => some []
  | c :: cs =>
    match utf8_encode_one c, utf8_encode cs with
    | some bs, some rest => some (bs ++ rest)
    | _, _ => none

/-- Modelled from the spec: the converter object
`std::wstring_convert<std::codecvt_utf8<int32_t>, int32_t>` that `Insert` and
`GetState` declare, as the UTF-8 decoder and encoder above. -/
def codecvt_utf8 : WStringConvert where
  from_bytes := fun bytes => utf8_decode bytes.length bytes
  to_bytes := utf8_encode

/-- True when `lo ≤ b ≤ hi`. -/
def in_range (b lo hi : Nat) : Bool := lo ≤ b && b ≤ hi

/-- Modelled from the spec: what the spec calls well-formed UTF-8 input, as the
table of well-formed UTF-8 byte sequences of the Unicode Standard (Table 3-7)
gives it, row by row: `00..7F`; `C2..DF 80..BF`; `E0 A0..BF 80..BF`;
`E1..EC 80..BF 80..BF`; `ED 80..9F 80..BF`; `EE..EF 80..BF 80..BF`;
`F0 90..BF 80..BF 80..BF`; `F1..F3 80..BF 80..BF 80..BF`;
`F4 80..8F 80..BF 80..BF`. A byte string is well-formed when it is a
concatenation of such sequences. It is written without reference to the
decoder. -/
def well_formed_utf8 : List Nat → Bool
  | [] => true
  | b1 :: rest =>
    if in_range b1 0x00 0x7F then well_formed_utf8 rest
    else
      match rest with
      | [] => false
      | b2 :: rest2 =>
        if in_range b1 0xC2 0xDF && in_range b2 0x80 0xBF then well_formed_utf8 rest2
        else
          match rest2 with
          | [] => false
          | b3 :: rest3 =>
            if (b1 == 0xE0 && in_range b2 0xA0 0xBF && in_range b3 0x80 0xBF)
                || (in_range b1 0xE1 0xEC && in_range b2 0x80 0xBF && in_range b3 0x80 0xBF)
                || (b1 == 0xED && in_range b2 0x80 0x9F && in_range b3 0x80 0xBF)
                || (in_range b1 0xEE 0xEF && in_range b2 0x80 0xBF && in_range b3 0x80 0xBF)
            then well_formed_utf8 rest3
            else
              match rest3 with
              | [] => false
              | b4 :: rest4 =>
                if (b1 == 0xF0 && in_range b2 0x90 0xBF && in_range b3 0x80 0xBF
                      && in_range b4 0x80 0xBF)
                    || (in_range b1 0xF1 0xF3 && in_range b2 0x80 0xBF && in_range b3 0x80 0xBF
                      && in_range b4 0x80 0xBF)
                    || (b1 == 0xF4 && in_range b2 0x80 0x8F && in_range b3 0x80 0xBF
                      && in_range b4 0x80 0xBF)
                then well_formed_utf8 rest4
                else false

/-! ## The model -/

/-- Modelled from the spec: the class declaration is in
`library/common/internal/text_input_model.h`, which is not among the sources.
The members are the ones the constructor and the member functions of
`text_input_model.cc` name: the code-point buffer `text_`, the session
identifier, the two configuration strings, and the three selection iterators,
kept as offsets from `text_.begin()`. -/
structure TextInputModel where
  text_ : List Nat
  client_id_ : Int
  input_action_ : String
  input_type_ : String
  selection_base_ : Int
  selection_extent_ : Int
  selection_cursor_ : Int
  deriving DecidableEq

namespace TextInputModel

/-- The constructor: empty text, the three iterators at `text_.begin()`. The
two configuration strings are the values read out of `config`. -/
def new (client_id : Int) (input_action input_type : String) : TextInputModel where
  text_ := []
  client_id_ := client_id
  input_action_ := input_action
  input_type_ := input_type
  selection_base_ := u32_begin []
  selection_extent_ := u32_begin []
  selection_cursor_ := u32_begin []

/-- `bool SetEditingState(size_t, size_t, const std::u32string &)`. -/
def SetEditingState (selection_base selection_extent : Nat) (text : List Nat)
    (m : TextInputModel) : Bool × TextInputModel :=
  if selection_base > selection_extent then (false, m)
  else if selection_extent > text.length then (false, m)
  else
    let m1 := { m with text_ := text }
    let m2 := { m1 with selection_base_ := u32_begin m1.text_ + selection_base }
    let m3 := { m2 with selection_extent_ := u32_begin m2.text_ + selection_extent }
    (true, { m3 with selection_cursor_ := m3.selection_extent_ })

/-- `void DeleteSelected()`. -/
def DeleteSelected (m : TextInputModel) : TextInputModel :=
  let m1 := { m with
    text_ := u32_erase m.text_ m.selection_base_ m.selection_extent_
    selection_base_ := m.selection_base_ }
  { m1 with selection_extent_ := m1.selection_base_ }

/-- `void AddCharacter(char32_t c)`. -/
def AddCharacter (c : Nat) (m : TextInputModel) : TextInputModel :=
  let m1 := if m.selection_base_ ≠ m.selection_extent_ then DeleteSelected m else m
  let m2 := { m1 with
    text_ := u32_insert m1.text_ m1.selection_extent_ c
    selection_extent_ := m1.selection_extent_ }
  let m3 := { m2 with selection_extent_ := m2.selection_extent_ + 1 }
  { m3 with selection_base_ := m3.selection_extent_ }

/-- `bool Backspace()`. -/
def Backspace (m : TextInputModel) : Bool × TextInputModel :=
  if m.selection_base_ ≠ m.selection_extent_ then (true, DeleteSelected m)
  else if m.selection_base_ ≠ u32_begin m.text_ then
    let m1 := { m with
      text_ := u32_erase m.text_ (m.selection_base_ - 1) m.selection_base_
      selection_base_ := m.selection_base_ - 1 }
    (true, { m1 with selection_extent_ := m1.selection_base_ })
  else (false, m)

/-- `bool Delete()`. -/
def Delete (m : TextInputModel) : Bool × TextInputModel :=
  if m.selection_base_ ≠ m.selection_extent_ then (true, DeleteSelected m)
  else if m.selection_base_ ≠ u32_end m.text_ then
    let m1 := { m with
      text_ := u32_erase m.text_ m.selection_base_ (m.selection_base_ + 1)
      selection_base_ := m.selection_base_ }
    (true, { m1 with selection_extent_ := m1.selection_base_ })
  else (false, m)

/-- `bool SelectAll()`. -/
def SelectAll (m : TextInputModel) : Bool × TextInputModel :=
  if ¬ m.text_.isEmpty then
    (true, { m with
      selection_base_ := u32_begin m.text_
      selection_extent_ := u32_end m.text_
      selection_cursor_ := u32_end m.text_ })
  else (false, m)

/-- `std::u32string GetSelected()`. -/
def GetSelected (m : TextInputModel) : List Nat :=
  if m.selection_base_ ≠ m.selection_extent_ then
    u32_range m.text_ m.selection_base_ m.selection_extent_
  else []

/-- `bool Insert(std::string text)`, with the converter object `convert` it
declares. `none` when `convert.from_bytes` throws: the exception leaves the
function before any member is written. -/
def Insert (convert : WStringConvert) (text : List Nat) (m : TextInputModel) :
    Option (Bool × TextInputModel) :=
  if text.isEmpty then some (false, m)
  else
    match convert.from_bytes text with
    | none => none
    | some u32text =>
      let m1 := if m.selection_base_ ≠ m.selection_extent_ then DeleteSelected m else m
      let m2 := { m1 with
        text_ := u32_insert_range m1.text_ m1.selection_extent_ u32text
        selection_extent_ := m1.selection_extent_ }
      let m3 := { m2 with selection_extent_ := m2.selection_extent_ + u32text.length }
      some (true, { m3 with selection_base_ := m3.selection_extent_ })

/-- `std::u32string Cut()`. -/
def Cut (m : TextInputModel) : List Nat × TextInputModel :=
  if m.selection_base_ ≠ m.selection_extent_ then
    let cut_string := GetSelected m
    (cut_string, DeleteSelected m)
  else ([], m)

/-- `void MoveCursorToBeginning()`. -/
def MoveCursorToBeginning (m : TextInputModel) : TextInputModel :=
  { m with selection_base_ := u32_begin m.text_, selection_extent_ := u32_begin m.text_ }

/-- `void MoveCursorToEnd()`. -/
def MoveCursorToEnd (m : TextInputModel) : TextInputModel :=
  { m with selection_base_ := u32_end m.text_, selection_extent_ := u32_end m.text_ }

/-- `bool MoveCursorForward()`. -/
def MoveCursorForward (m : TextInputModel) : Bool × TextInputModel :=
  if m.selection_base_ ≠ m.selection_extent_ then
    (true, { m with selection_base_ := m.selection_extent_ })
  else if m.selection_extent_ ≠ u32_end m.text_ then
    (true, { m with
      selection_extent_ := m.selection_extent_ + 1
      selection_base_ := m.selection_base_ + 1 })
  else (false, m)

/-- `bool MoveCursorBack()`. -/
def MoveCursorBack (m : TextInputModel) : Bool × TextInputModel :=
  if m.selection_base_ ≠ m.selection_extent_ then
    (true, { m with selection_extent_ := m.selection_base_ })
  else if m.selection_base_ ≠ u32_begin m.text_ then
    (true, { m with
      selection_base_ := m.selection_base_ - 1
      selection_extent_ := m.selection_extent_ - 1 })
  else (false, m)

/-- `bool MoveSelectForward()`. -/
def MoveSelectForward (m : TextInputModel) : Bool × TextInputModel :=
  if m.selection_base_ ≠ m.selection_extent_ ∧ m.selection_cursor_ = m.selection_base_ then
    (true, { m with
      selection_base_ := m.selection_base_ + 1
      selection_cursor_ := m.selection_cursor_ + 1 })
  else if m.selection_extent_ ≠ u32_end m.text_ then
    (true, { m with
      selection_extent_ := m.selection_extent_ + 1
      selection_cursor_ := m.selection_extent_ + 1 })
  else (false, m)

/-- `bool MoveSelectBack()`. -/
def MoveSelectBack (m : TextInputModel) : Bool × TextInputModel :=
  if m.selection_base_ ≠ m.selection_extent_ ∧ m.selection_cursor_ = m.selection_extent_ then
    (true, { m with
      selection_extent_ := m.selection_extent_ - 1
      selection_cursor_ := m.selection_cursor_ - 1 })
  else if m.selection_base_ ≠ u32_begin m.text_ then
    (true, { m with
      selection_base_ := m.selection_base_ - 1
      selection_cursor_ := m.selection_base_ - 1 })
  else (false, m)

end TextInputModel

/-! ## Sequences of public operations -/

/-- One call of a public mutating member function, with its arguments. -/
inductive Op where
  | SetEditingState (selection_base selection_extent : Nat) (text : List Nat)
  | AddCharacter (c : Nat)
  | Insert (text : List Nat)
  | Backspace
  | Delete
  | Cut
  | SelectAll
  | MoveCursorToBeginning
  | MoveCursorToEnd
  | MoveCursorForward
  | MoveCursorBack
  | MoveSelectForward
  | MoveSelectBack
  deriving DecidableEq

/-- The model after one call; the returned value is dropped. An `Insert` whose
conversion throws leaves the model as it was. -/
def Op.apply (convert : WStringConvert) : Op → TextInputModel → TextInputModel
  | .SetEditingState b e t, m => (m.SetEditingState b e t).2
  | .AddCharacter c, m => m.AddCharacter c
  | .Insert t, m => ((m.Insert convert t).map (·.2)).getD m
  | .Backspace, m => m.Backspace.2
  | .Delete, m => m.Delete.2
  | .Cut, m => m.Cut.2
  | .SelectAll, m => m.SelectAll.2
  | .MoveCursorToBeginning, m => m.MoveCursorToBeginning
  | .MoveCursorToEnd, m => m.MoveCursorToEnd
  | .MoveCursorForward, m => m.MoveCursorForward.2
  | .MoveCursorBack, m => m.MoveCursorBack.2
  | .MoveSelectForward, m => m.MoveSelectForward.2
  | .MoveSelectBack, m => m.MoveSelectBack.2

/-- The model after a sequence of calls, first call first. -/
def run (convert : WStringConvert) (ops : List Op) (m : TextInputModel) : TextInputModel :=
  ops.foldl (fun acc op => op.apply convert acc) m

/-- The state reached from a freshly constructed model by `ops`. -/
def reached (convert : WStringConvert) (client_id : Int) (input_action input_type : String)
    (ops : List Op) : TextInputModel :=
  run convert ops (TextInputModel.new client_id input_action input_type)

/-- The code units of a string literal, as in `U"..."`. -/
def u32 (s : String) : List Nat := s.toList.map Char.toNat

/-- Both ends of the selection lie in the buffer, base first. -/
def Ordered (m : TextInputModel) : Prop :=
  0 ≤ m.selection_base_ ∧ m.selection_base_ ≤ m.selection_extent_ ∧
    m.selection_extent_ ≤ (m.text_.length : Int)

/-- While a selection is active the selection cursor sits on one of its ends. -/
def CursorOnEnd (m : TextInputModel) : Prop :=
  m.selection_base_ ≠ m.selection_extent_ →
    m.selection_cursor_ = m.selection_base_ ∨ m.selection_cursor_ = m.selection_extent_

/-! ## State export

`Json::Value` belongs to the JSON library, not to this repository; only the
constructions `GetState` performs are modelled: integer, boolean and string
values, `operator[]` assignment on an object, and `append` on an array. -/

/-- Modelled from the spec: `Json::Value` is declared by the JSON library, not
among the sources; the spec describes the exported state as a sequence holding
an identifier and a structured object with integer, string and boolean fields.
A string value holds its bytes. The members of an object are listed in the
order they were first assigned. -/
inductive JsonValue where
  | null
  | int (n : Int)
  | bool (b : Bool)
  | string (bytes : List Nat)
  | array (items : List JsonValue)
  | object (members : List (String × JsonValue))

/-- Assignment to a member of an association list: an existing key is
overwritten, a new one is added. -/
def JsonValue.setMember (key : String) (v : JsonValue) :
    List (String × JsonValue) → List (String × JsonValue)
  | [] => [(key, v)]
  | (k, w) :: rest =>
    if k = key then (k, v) :: rest else (k, w) :: JsonValue.setMember key v rest

/-- The value after `value[key] = v`; a null value becomes an object first. -/
def JsonValue.set (value : JsonValue) (key : String) (v : JsonValue) : JsonValue :=
  match value with
  | .null => .object [(key, v)]
  | .object members => .object (JsonValue.setMember key v members)
  | other => other

/-- The value after `value.append(v)`; a null value becomes an array first. -/
def JsonValue.append (value : JsonValue) (v : JsonValue) : JsonValue :=
  match value with
  | .null => .array [v]
  | .array items => .array (items ++ [v])
  | other => other

/-- The member `value[key]` of an object, when it has one. -/
def JsonValue.member (value : JsonValue) (key : String) : Option JsonValue :=
  match value with
  | .object members => (members.find? (fun kv => kv.1 = key)).map (fun kv => kv.2)
  | _ => none

/-- The bytes of a `char[]` literal made of ASCII characters. -/
def c_str (s : String) : List Nat := s.toList.map Char.toNat

/-- `static_cast<int>(d)` of a pointer difference: the value reduced to 32
bits, two's complement. -/
def static_cast_int (d : Int) : Int := (d + 2 ^ 31) % 2 ^ 32 - 2 ^ 31

def kComposingBaseKey : String := "composingBase"

def kComposingExtentKey : String := "composingExtent"

def kSelectionAffinityKey : String := "selectionAffinity"

def kAffinityDownstream : List Nat := c_str "TextAffinity.downstream"

def kSelectionBaseKey : String := "selectionBase"

def kSelectionExtentKey : String := "selectionExtent"

def kSelectionIsDirectionalKey : String := "selectionIsDirectional"

def kTextKey : String := "text"

/-- `Json::Value GetState() const`, with the converter object `convert` it
declares. `none` when `convert.to_bytes` throws. The function is `const`: the
model it reads is not written. -/
def TextInputModel.GetState (convert : WStringConvert) (m : TextInputModel) :
    Option JsonValue :=
  let editing_state := JsonValue.null
  let editing_state := editing_state.set kComposingBaseKey (.int (-1))
  let editing_state := editing_state.set kComposingExtentKey (.int (-1))
  let editing_state := editing_state.set kSelectionAffinityKey (.string kAffinityDownstream)
  let editing_state := editing_state.set kSelectionBaseKey
    (.int (static_cast_int (m.selection_base_ - u32_begin m.text_)))
  let editing_state := editing_state.set kSelectionExtentKey
    (.int (static_cast_int (m.selection_extent_ - u32_begin m.text_)))
  let editing_state := editing_state.set kSelectionIsDirectionalKey (.bool false)
  match convert.to_bytes m.text_ with
  | none => none
  | some bytes =>
    let editing_state := editing_state.set kTextKey (.string bytes)
    let args := JsonValue.array []
    let args := args.append (.int m.client_id_)
    let args := args.append editing_state
    some args

/-! ## Buffer lemmas -/

theorem u32_erase_length (text : List Nat) (first last : Int)
    (h0 : 0 ≤ first) (h1 : first ≤ last) (h2 : last ≤ (text.length : Int)) :
    ((u32_erase text first last).length : Int) = text.length - (last - first) := by
  simp only [u32_erase, List.length_append, List.length_take, List.length_drop]
  omega

theorem u32_insert_range_length (text : List Nat) (pos : Int) (r : List Nat) :
    (u32_insert_range text pos r).length = text.length + r.length := by
  simp only [u32_insert_range, List.length_append, List.length_take, List.length_drop]
  omega

theorem u32_insert_length (text : List Nat) (pos : Int) (c : Nat) :
    (u32_insert text pos c).length = text.length + 1 := by
  simp only [u32_insert, List.length_append, List.length_take, List.length_drop,
    List.length_cons]
  omega

/-! ## The selection stays ordered and in bounds -/

theorem DeleteSelected_ordered (m : TextInputModel) (h : Ordered m) :
    Ordered m.DeleteSelected := by
  obtain ⟨h0, h1, h2⟩ := h
  have hl := u32_erase_length m.text_ _ _ h0 h1 h2
  simp only [Ordered, TextInputModel.DeleteSelected]
  omega

theorem AddCharacter_ordered (c : Nat) (m : TextInputModel) (h : Ordered m) :
    Ordered (m.AddCharacter c) := by
  have hd := DeleteSelected_ordered m h
  obtain ⟨h0, h1, h2⟩ := h
  obtain ⟨d0, d1, d2⟩ := hd
  simp only [Ordered, TextInputModel.AddCharacter]
  split
  · simp only [u32_insert_length]
    push_cast
    omega
  · simp only [u32_insert_length]
    push_cast
    omega

theorem Insert_ordered (convert : WStringConvert) (text : List Nat) (m : TextInputModel)
    (h : Ordered m) : Ordered (((m.Insert convert text).map (·.2)).getD m) := by
  have hd := DeleteSelected_ordered m h
  obtain ⟨h0, h1, h2⟩ := h
  obtain ⟨d0, d1, d2⟩ := hd
  unfold TextInputModel.Insert
  split
  · exact ⟨h0, h1, h2⟩
  · cases hc : convert.from_bytes text with
    | none => exact ⟨h0, h1, h2⟩
    | some u32text =>
      simp only [Option.map_some', Option.getD_some, Ordered]
      split
      · simp only [u32_insert_range_length]
        push_cast
        omega
      · simp only [u32_insert_range_length]
        push_cast
        omega

theorem apply_ordered (convert : WStringConvert) (op : Op) (m : TextInputModel)
    (h : Ordered m) : Ordered (op.apply convert m) := by
  cases op with
  | AddCharacter c => exact AddCharacter_ordered c m h
  | Insert t => exact Insert_ordered convert t m h
  | SetEditingState b e t =>
    simp only [Op.apply, TextInputModel.SetEditingState]
    split
    · exact h
    · split
      · exact h
      · simp only [Ordered, u32_begin]
        omega
  | Backspace =>
    have hd := DeleteSelected_ordered m h
    obtain ⟨h0, h1, h2⟩ := h
    simp only [Op.apply, TextInputModel.Backspace, u32_begin]
    split
    · exact hd
    · split
      · rename_i hne hb
        have hl := u32_erase_length m.text_ (m.selection_base_ - 1) m.selection_base_
          (by omega) (by omega) (by omega)
        simp only [Ordered]
        omega
      · exact ⟨h0, h1, h2⟩
  | Delete =>
    have hd := DeleteSelected_ordered m h
    obtain ⟨h0, h1, h2⟩ := h
    simp only [Op.apply, TextInputModel.Delete, u32_end]
    split
    · exact hd
    · split
      · rename_i hne hb
        have hl := u32_erase_length m.text_ m.selection_base_ (m.selection_base_ + 1)
          h0 (by omega) (by omega)
        simp only [Ordered]
        omega
      · exact ⟨h0, h1, h2⟩
  | Cut =>
    have hd := DeleteSelected_ordered m h
    simp only [Op.apply, TextInputModel.Cut]
    split
    · exact hd
    · exact h
  | SelectAll =>
    simp only [Op.apply, TextInputModel.SelectAll]
    split
    · simp only [Ordered, u32_begin, u32_end]
      omega
    · exact h
  | MoveCursorToBeginning =>
    simp only [Op.apply, TextInputModel.MoveCursorToBeginning, Ordered, u32_begin]
    omega
  | MoveCursorToEnd =>
    simp only [Op.apply, TextInputModel.MoveCursorToEnd, Ordered, u32_end]
    omega
  | MoveCursorForward =>
    obtain ⟨h0, h1, h2⟩ := h
    simp only [Op.apply, TextInputModel.MoveCursorForward, u32_end]
    split
    · simp only [Ordered]; omega
    · split
      · simp only [Ordered]; omega
      · exact ⟨h0, h1, h2⟩
  | MoveCursorBack =>
    obtain ⟨h0, h1, h2⟩ := h
    simp only [Op.apply, TextInputModel.MoveCursorBack, u32_begin]
    split
    · simp only [Ordered]; omega
    · split
      · simp only [Ordered]; omega
      · exact ⟨h0, h1, h2⟩
  | MoveSelectForward =>
    obtain ⟨h0, h1, h2⟩ := h
    simp only [Op.apply, TextInputModel.MoveSelectForward, u32_end]
    split
    · simp only [Ordered]; omega
    · split
      · simp only [Ordered]; omega
      · exact ⟨h0, h1, h2⟩
  | MoveSelectBack =>
    obtain ⟨h0, h1, h2⟩ := h
    simp only [Op.apply, TextInputModel.MoveSelectBack, u32_begin]
    split
    · simp only [Ordered]; omega
    · split
      · simp only [Ordered]; omega
      · exact ⟨h0, h1, h2⟩

theorem run_ordered (convert : WStringConvert) (ops : List Op) :
    ∀ m : TextInputModel, Ordered m → Ordered (run convert ops m) := by
  induction ops with
  | nil => intro m h; exact h
  | cons op rest ih =>
    intro m h
    exact ih (op.apply convert m) (apply_ordered convert op m h)

theorem reached_ordered (convert : WStringConvert) (client_id : Int)
    (input_action input_type : String) (ops : List Op) :
    Ordered (reached convert client_id input_action input_type ops) := by
  apply run_ordered
  simp [Ordered, TextInputModel.new, u32_begin]

/-! ## The selection cursor during an active selection -/

theorem apply_cursorOnEnd (convert : WStringConvert) (op : Op) (m : TextInputModel)
    (h : CursorOnEnd m) : CursorOnEnd (op.apply convert m) := by
  cases op with
  | AddCharacter c =>
    intro hne
    exact absurd rfl hne
  | Insert t =>
    simp only [Op.apply, TextInputModel.Insert]
    split
    · exact h
    · cases hc : convert.from_bytes t with
      | none => exact h
      | some u32text =>
        intro hne
        exact absurd rfl hne
  | SetEditingState b e t =>
    simp only [Op.apply, TextInputModel.SetEditingState]
    split
    · exact h
    · split
      · exact h
      · intro _
        exact Or.inr rfl
  | Backspace =>
    simp only [Op.apply, TextInputModel.Backspace]
    split
    · intro hne; exact absurd rfl hne
    · split
      · intro hne; exact absurd rfl hne
      · exact h
  | Delete =>
    simp only [Op.apply, TextInputModel.Delete]
    split
    · intro hne; exact absurd rfl hne
    · split
      · intro hne; exact absurd rfl hne
      · exact h
  | Cut =>
    simp only [Op.apply, TextInputModel.Cut]
    split
    · intro hne; exact absurd rfl hne
    · exact h
  | SelectAll =>
    simp only [Op.apply, TextInputModel.SelectAll]
    split
    · intro _; exact Or.inr rfl
    · exact h
  | MoveCursorToBeginning =>
    intro hne; exact absurd rfl hne
  | MoveCursorToEnd =>
    intro hne; exact absurd rfl hne
  | MoveCursorForward =>
    simp only [Op.apply, TextInputModel.MoveCursorForward]
    split
    · intro hne; exact absurd rfl hne
    · split
      · rename_i heq _
        simp only [CursorOnEnd]
        intro hne
        omega
      · exact h
  | MoveCursorBack =>
    simp only [Op.apply, TextInputModel.MoveCursorBack]
    split
    · intro hne; exact absurd rfl hne
    · split
      · rename_i heq _
        simp only [CursorOnEnd]
        intro hne
        omega
      · exact h
  | MoveSelectForward =>
    simp only [Op.apply, TextInputModel.MoveSelectForward]
    split
    · rename_i hc
      simp only [CursorOnEnd]
      intro _
      omega
    · split
      · intro _; exact Or.inr rfl
      · exact h
  | MoveSelectBack =>
    simp only [Op.apply, TextInputModel.MoveSelectBack]
    split
    · rename_i hc
      simp only [CursorOnEnd]
      intro _
      omega
    · split
      · intro _; exact Or.inl rfl
      · exact h

theorem run_cursorOnEnd (convert : WStringConvert) (ops : List Op) :
    ∀ m : TextInputModel, CursorOnEnd m → CursorOnEnd (run convert ops m) := by
  induction ops with
  | nil => intro m h; exact h
  | cons op rest ih =>
    intro m h
    exact ih (op.apply convert m) (apply_cursorOnEnd convert op m h)

theorem reached_cursorOnEnd (convert : WStringConvert) (client_id : Int)
    (input_action input_type : String) (ops : List Op) :
    CursorOnEnd (reached convert client_id input_action input_type ops) := by
  apply run_cursorOnEnd
  intro hne
  exact absurd rfl hne

/-! ## Replacing the selection by a run -/

theorem take_toNat_length (text : List Nat) (b : Int)
    (h1 : b ≤ (text.length : Int)) : (text.take b.toNat).length = b.toNat := by
  simp only [List.length_take]
  omega

theorem u32_insert_range_erase (text : List Nat) (b e : Int) (r : List Nat)
    (h1 : b ≤ e) (h2 : e ≤ (text.length : Int)) :
    u32_insert_range (u32_erase text b e) b r
      = text.take b.toNat ++ r ++ text.drop e.toNat := by
  have hl := take_toNat_length text b (by omega)
  simp only [u32_insert_range, u32_erase]
  rw [List.take_left' hl, List.drop_left' hl]

theorem u32_insert_eq_range (text : List Nat) (pos : Int) (c : Nat) :
    u32_insert text pos c = u32_insert_range text pos [c] := by
  simp [u32_insert, u32_insert_range]

theorem u32_insert_range_self (text : List Nat) (b : Int) (r : List Nat) :
    u32_insert_range text b r = text.take b.toNat ++ r ++ text.drop b.toNat := rfl

/-- The model after `AddCharacter(c)` on an ordered selection. -/
theorem AddCharacter_eq (c : Nat) (m : TextInputModel) (h : Ordered m) :
    m.AddCharacter c = { m with
      text_ := m.text_.take m.selection_base_.toNat ++ [c]
        ++ m.text_.drop m.selection_extent_.toNat
      selection_base_ := m.selection_base_ + 1
      selection_extent_ := m.selection_base_ + 1 } := by
  obtain ⟨h0, h1, h2⟩ := h
  by_cases hne : m.selection_base_ ≠ m.selection_extent_
  · simp only [TextInputModel.AddCharacter, if_pos hne, TextInputModel.DeleteSelected,
      u32_insert_eq_range, u32_insert_range_erase m.text_ _ _ [c] h1 h2]
  · have heq : m.selection_extent_ = m.selection_base_ := by omega
    simp only [TextInputModel.AddCharacter, if_neg hne]
    simp only [u32_insert_eq_range, u32_insert_range_self, heq]

/-- The model after a successful `Insert` on an ordered selection. -/
theorem Insert_eq (convert : WStringConvert) (bytes cs : List Nat) (m : TextInputModel)
    (hb : bytes ≠ []) (hd : convert.from_bytes bytes = some cs) (h : Ordered m) :
    m.Insert convert bytes = some (true, { m with
      text_ := m.text_.take m.selection_base_.toNat ++ cs
        ++ m.text_.drop m.selection_extent_.toNat
      selection_base_ := m.selection_base_ + (cs.length : Int)
      selection_extent_ := m.selection_base_ + (cs.length : Int) }) := by
  obtain ⟨h0, h1, h2⟩ := h
  have he : bytes.isEmpty = false := by
    cases bytes with
    | nil => exact absurd rfl hb
    | cons b bs => rfl
  by_cases hne : m.selection_base_ ≠ m.selection_extent_
  · simp only [TextInputModel.Insert, he, hd, if_pos hne, TextInputModel.DeleteSelected,
      u32_insert_range_erase m.text_ _ _ cs h1 h2, Bool.false_eq_true, if_false]
  · have heq : m.selection_extent_ = m.selection_base_ := by omega
    simp only [TextInputModel.Insert, he, hd, if_neg hne, Bool.false_eq_true, if_false]
    simp only [u32_insert_range_self, heq]

/-- Adding the code units of `cs` one at a time at a caret standing after
`pre` writes `cs` between `pre` and `post`. -/
theorem foldl_AddCharacter_caret (cs : List Nat) :
    ∀ (pre post : List Nat) (cid : Int) (ia it : String) (cur : Int),
      cs.foldl (fun acc c => acc.AddCharacter c)
          (TextInputModel.mk (pre ++ post) cid ia it pre.length pre.length cur)
        = TextInputModel.mk (pre ++ cs ++ post) cid ia it
            ((pre.length : Int) + cs.length) ((pre.length : Int) + cs.length) cur := by
  induction cs with
  | nil =>
    intro pre post cid ia it cur
    simp
  | cons c rest ih =>
    intro pre post cid ia it cur
    have hstep : (TextInputModel.mk (pre ++ post) cid ia it pre.length pre.length cur).AddCharacter c
        = TextInputModel.mk ((pre ++ [c]) ++ post) cid ia it
            ((pre ++ [c]).length : Nat) ((pre ++ [c]).length : Nat) cur := by
      simp [TextInputModel.AddCharacter, u32_insert]
    rw [List.foldl_cons, hstep, ih]
    simp only [List.length_append, List.length_cons, List.length_nil, List.append_assoc,
      List.singleton_append, Nat.cast_add, Nat.cast_one, zero_add]
    congr 1 <;> omega

/-- The model after a non-empty run of `AddCharacter` calls on an ordered
selection. -/
theorem foldl_AddCharacter_eq (c : Nat) (rest : List Nat) (m : TextInputModel)
    (h : Ordered m) :
    (c :: rest).foldl (fun acc c => acc.AddCharacter c) m = { m with
      text_ := m.text_.take m.selection_base_.toNat ++ (c :: rest)
        ++ m.text_.drop m.selection_extent_.toNat
      selection_base_ := m.selection_base_ + ((c :: rest).length : Int)
      selection_extent_ := m.selection_base_ + ((c :: rest).length : Int) } := by
  have hl := take_toNat_length m.text_ m.selection_base_ (by obtain ⟨_, h1, h2⟩ := h; omega)
  have hb : m.selection_base_ + 1
      = ((m.text_.take m.selection_base_.toNat ++ [c]).length : Nat) := by
    rw [List.length_append, hl]
    obtain ⟨h0, _, _⟩ := h
    simp only [List.length_cons, List.length_nil, zero_add, Nat.cast_add, Nat.cast_one]
    omega
  rw [List.foldl_cons, AddCharacter_eq c m h]
  simp only [hb]
  rw [foldl_AddCharacter_caret, ← hb]
  simp only [List.length_cons, List.append_assoc, List.singleton_append, Nat.cast_add,
    Nat.cast_one]
  congr 1 <;> omega

/-- Erasing the one-element range that starts at a valid offset removes
exactly the element at that offset. -/
theorem u32_erase_one (text : List Nat) (p : Int) (h0 : 0 ≤ p) :
    u32_erase text p (p + 1) = text.eraseIdx p.toNat := by
  have hp : (p + 1).toNat = p.toNat + 1 := by omega
  rw [u32_erase, hp, List.eraseIdx_eq_take_drop_succ]

/-- The selected range put back at the deletion point restores the text. -/
theorem u32_range_restore (text : List Nat) (b e : Int) (h1 : b ≤ e)
    (h2 : e ≤ (text.length : Int)) :
    (u32_erase text b e).take b.toNat ++ u32_range text b e
        ++ (u32_erase text b e).drop b.toNat = text := by
  have hl := take_toNat_length text b (by omega)
  have he : text.drop e.toNat = (text.drop b.toNat).drop (e.toNat - b.toNat) := by
    rw [List.drop_drop]
    congr 1
    omega
  simp only [u32_erase, u32_range]
  rw [List.take_left' hl, List.drop_left' hl, List.append_assoc, he,
    List.take_append_drop, List.take_append_drop]

/-! ## Extending a selection forward -/

/-- `MoveSelectForward()` advances the extent whenever the selection is
collapsed or has its cursor on the extent, and the extent is not at the end. -/
theorem MoveSelectForward_extend (m : TextInputModel)
    (hc : m.selection_base_ = m.selection_extent_ ∨
      (m.selection_base_ < m.selection_extent_ ∧ m.selection_cursor_ = m.selection_extent_))
    (hlt : m.selection_extent_ < (m.text_.length : Int)) :
    m.MoveSelectForward = (true, { m with
      selection_extent_ := m.selection_extent_ + 1
      selection_cursor_ := m.selection_extent_ + 1 }) := by
  have h1 : ¬ (m.selection_base_ ≠ m.selection_extent_ ∧
      m.selection_cursor_ = m.selection_base_) := by
    intro hcon
    omega
  have h2 : m.selection_extent_ ≠ u32_end m.text_ := by
    simp only [u32_end]; omega
  simp only [TextInputModel.MoveSelectForward, if_neg h1, if_pos h2]

/-- The model after `k` calls of `MoveSelectForward()` from a caret with room
for `k` steps. -/
theorem iterate_MoveSelectForward (m : TextInputModel)
    (hce : m.selection_base_ = m.selection_extent_) :
    ∀ k : Nat, m.selection_extent_ + (k : Int) ≤ (m.text_.length : Int) →
      (fun s : TextInputModel => s.MoveSelectForward.2)^[k] m = { m with
        selection_extent_ := m.selection_extent_ + (k : Int)
        selection_cursor_ := if k = 0 then m.selection_cursor_
          else m.selection_extent_ + (k : Int) } := by
  intro k
  induction k with
  | zero =>
    intro _
    simp
  | succ k ih =>
    intro hk
    have hk' : m.selection_extent_ + (k : Int) ≤ (m.text_.length : Int) := by
      push_cast at hk; omega
    rw [Function.iterate_succ_apply', ih hk']
    rw [MoveSelectForward_extend]
    · simp only [Nat.cast_add, Nat.cast_one, Nat.succ_ne_zero, if_false, add_assoc]
    · by_cases hz : k = 0
      · left
        simp only [hz, Nat.cast_zero, add_zero]
        exact hce
      · right
        simp only [if_neg hz, and_true]
        omega
    · simp only
      push_cast at hk
      omega

/-! ## The returned boolean against the visible change -/

theorem Backspace_reports (m : TextInputModel) :
    m.Backspace.1 = true ↔
      (m.Backspace.2.text_, m.Backspace.2.selection_base_, m.Backspace.2.selection_extent_)
        ≠ (m.text_, m.selection_base_, m.selection_extent_) := by
  by_cases hne : m.selection_base_ ≠ m.selection_extent_
  · have hr : m.Backspace = (true, m.DeleteSelected) := by
      simp only [TextInputModel.Backspace, if_pos hne]
    rw [hr]
    refine ⟨fun _ hcon => ?_, fun _ => rfl⟩
    simp only [TextInputModel.DeleteSelected, Prod.mk.injEq] at hcon
    exact hne hcon.2.2
  · by_cases hb : m.selection_base_ ≠ u32_begin m.text_
    · refine ⟨fun _ hcon => ?_, fun _ => ?_⟩
      · simp only [TextInputModel.Backspace, if_neg hne, if_pos hb, Prod.mk.injEq] at hcon
        omega
      · simp only [TextInputModel.Backspace, if_neg hne, if_pos hb]
    · have hr : m.Backspace = (false, m) := by
        simp only [TextInputModel.Backspace, if_neg hne, if_neg hb]
      rw [hr]
      exact ⟨fun hcon => (by cases hcon), fun hcon => absurd rfl hcon⟩

theorem Delete_reports (m : TextInputModel) (h : Ordered m) :
    m.Delete.1 = true ↔
      (m.Delete.2.text_, m.Delete.2.selection_base_, m.Delete.2.selection_extent_)
        ≠ (m.text_, m.selection_base_, m.selection_extent_) := by
  obtain ⟨h0, h1, h2⟩ := h
  by_cases hne : m.selection_base_ ≠ m.selection_extent_
  · have hr : m.Delete = (true, m.DeleteSelected) := by
      simp only [TextInputModel.Delete, if_pos hne]
    rw [hr]
    refine ⟨fun _ hcon => ?_, fun _ => rfl⟩
    simp only [TextInputModel.DeleteSelected, Prod.mk.injEq] at hcon
    exact hne hcon.2.2
  · by_cases hb : m.selection_base_ ≠ u32_end m.text_
    · refine ⟨fun _ hcon => ?_, fun _ => ?_⟩
      · simp only [TextInputModel.Delete, if_neg hne, if_pos hb, Prod.mk.injEq] at hcon
        have hl := u32_erase_length m.text_ m.selection_base_ (m.selection_base_ + 1)
          h0 (by omega) (by simp only [u32_end] at hb; omega)
        rw [hcon.1] at hl
        omega
      · simp only [TextInputModel.Delete, if_neg hne, if_pos hb]
    · have hr : m.Delete = (false, m) := by
        simp only [TextInputModel.Delete, if_neg hne, if_neg hb]
      rw [hr]
      exact ⟨fun hcon => (by cases hcon), fun hcon => absurd rfl hcon⟩

/-- `Insert` returns true exactly on a non-empty input; a change is always
reported, and when the decoded run is not empty the report is exact. -/
theorem Insert_reports (convert : WStringConvert) (bytes : List Nat) (m : TextInputModel)
    (h : Ordered m) (r : Bool × TextInputModel) (hr : m.Insert convert bytes = some r) :
    (r.1 = true ↔ bytes ≠ []) ∧
    ((r.2.text_, r.2.selection_base_, r.2.selection_extent_)
        ≠ (m.text_, m.selection_base_, m.selection_extent_) → r.1 = true) ∧
    (∀ cs : List Nat, convert.from_bytes bytes = some cs → cs ≠ [] →
      (r.1 = true ↔
        (r.2.text_, r.2.selection_base_, r.2.selection_extent_)
          ≠ (m.text_, m.selection_base_, m.selection_extent_))) := by
  cases bytes with
  | nil =>
    have he : m.Insert convert [] = some (false, m) := rfl
    rw [he] at hr
    cases hr
    refine ⟨⟨fun hcon => (by cases hcon), fun hcon => absurd rfl hcon⟩,
      fun hcon => absurd rfl hcon, fun _ _ _ => ?_⟩
    exact ⟨fun hcon => (by cases hcon), fun hcon => absurd rfl hcon⟩
  | cons b bs =>
    cases hd : convert.from_bytes (b :: bs) with
    | none =>
      simp only [TextInputModel.Insert, List.isEmpty_cons, Bool.false_eq_true, if_false, hd]
        at hr
      cases hr
    | some cs =>
      rw [Insert_eq convert (b :: bs) cs m (List.cons_ne_nil b bs) hd h] at hr
      cases hr
      refine ⟨⟨fun _ => List.cons_ne_nil b bs, fun _ => rfl⟩, fun _ => rfl,
        fun cs' hd' hcs' => ⟨fun _ hcon => ?_, fun _ => rfl⟩⟩
      have hcs : cs = cs' := Option.some.inj hd'
      subst hcs
      have hlen : 0 < cs.length := List.length_pos.mpr hcs'
      simp only [Prod.mk.injEq] at hcon
      omega

/-- A non-empty input never decodes to the empty string. -/
theorem utf8_decode_ne_nil (fuel b : Nat) (bs cs : List Nat)
    (h : utf8_decode fuel (b :: bs) = some cs) : cs ≠ [] := by
  intro hnil
  subst hnil
  cases fuel with
  | zero => simp [utf8_decode] at h
  | succ n =>
    unfold utf8_decode at h
    split_ifs at h
    all_goals first
      | (simp only [Option.map_eq_some'] at h
         obtain ⟨_, _, hc⟩ := h
         cases hc)
      | (split at h
         all_goals first
           | cases h
           | (split_ifs at h
              all_goals first
                | cases h
                | (simp only [Option.map_eq_some'] at h
                   obtain ⟨_, _, hc⟩ := h
                   cases hc)))

theorem codecvt_utf8_from_bytes_ne_nil (bs cs : List Nat) (hb : bs ≠ [])
    (h : codecvt_utf8.from_bytes bs = some cs) : cs ≠ [] := by
  cases bs with
  | nil => exact absurd rfl hb
  | cons b rest => exact utf8_decode_ne_nil _ b rest cs h

/-! ## The UTF-8 encoder undoes the decoder -/

theorem utf8_encode_one_2 (c1 c2 : Nat) (h1 : ¬ c1 < 0xC2) (h2 : c1 < 0xE0)
    (hc : is_cont c2 = true) :
    utf8_encode_one ((c1 - 0xC0) * 0x40 + (c2 - 0x80)) = some [c1, c2] := by
  simp only [is_cont, Bool.and_eq_true, decide_eq_true_eq] at hc
  unfold utf8_encode_one
  rw [if_neg (by omega), if_pos (by omega)]
  have e1 : 0xC0 + ((c1 - 0xC0) * 0x40 + (c2 - 0x80)) / 0x40 = c1 := by omega
  have e2 : 0x80 + ((c1 - 0xC0) * 0x40 + (c2 - 0x80)) % 0x40 = c2 := by omega
  rw [e1, e2]

theorem utf8_encode_one_3 (c1 c2 c3 : Nat) (h1 : ¬ c1 < 0xE0) (h2 : c1 < 0xF0)
    (hc : (is_cont c2 && is_cont c3
      && !(c1 == 0xE0 && decide (c2 < 0xA0)) && !(c1 == 0xED && decide (0xA0 ≤ c2))) = true) :
    utf8_encode_one ((c1 - 0xE0) * 0x1000 + (c2 - 0x80) * 0x40 + (c3 - 0x80))
      = some [c1, c2, c3] := by
  simp only [is_cont, Bool.and_eq_true, decide_eq_true_eq, Bool.not_eq_true',
    Bool.and_eq_false_iff, beq_eq_false_iff_ne, decide_eq_false_iff_not, ne_eq] at hc
  obtain ⟨⟨⟨⟨_, _⟩, ⟨_, _⟩⟩, ho⟩, hs⟩ := hc
  unfold utf8_encode_one
  rw [if_neg (by omega), if_neg (by omega), if_pos (by omega)]
  have hsur : ¬ ((decide (0xD800 ≤ (c1 - 0xE0) * 0x1000 + (c2 - 0x80) * 0x40 + (c3 - 0x80))
      && decide ((c1 - 0xE0) * 0x1000 + (c2 - 0x80) * 0x40 + (c3 - 0x80) < 0xE000)) = true) := by
    simp only [Bool.and_eq_true, decide_eq_true_eq]
    omega
  rw [if_neg hsur]
  have e1 : 0xE0 + ((c1 - 0xE0) * 0x1000 + (c2 - 0x80) * 0x40 + (c3 - 0x80)) / 0x1000 = c1 := by
    omega
  have e2 : 0x80 + ((c1 - 0xE0) * 0x1000 + (c2 - 0x80) * 0x40 + (c3 - 0x80)) / 0x40 % 0x40
      = c2 := by omega
  have e3 : 0x80 + ((c1 - 0xE0) * 0x1000 + (c2 - 0x80) * 0x40 + (c3 - 0x80)) % 0x40 = c3 := by
    omega
  rw [e1, e2, e3]

theorem utf8_encode_one_4 (c1 c2 c3 c4 : Nat) (h1 : ¬ c1 < 0xF0) (h2 : c1 < 0xF5)
    (hc : (is_cont c2 && is_cont c3 && is_cont c4
      && !(c1 == 0xF0 && decide (c2 < 0x90)) && !(c1 == 0xF4 && decide (0x90 ≤ c2))) = true) :
    utf8_encode_one ((c1 - 0xF0) * 0x40000 + (c2 - 0x80) * 0x1000 + (c3 - 0x80) * 0x40
        + (c4 - 0x80))
      = some [c1, c2, c3, c4] := by
  simp only [is_cont, Bool.and_eq_true, decide_eq_true_eq, Bool.not_eq_true',
    Bool.and_eq_false_iff, beq_eq_false_iff_ne, decide_eq_false_iff_not, ne_eq] at hc
  obtain ⟨⟨⟨⟨⟨_, _⟩, ⟨_, _⟩⟩, ⟨_, _⟩⟩, ho⟩, hs⟩ := hc
  unfold utf8_encode_one
  rw [if_neg (by omega), if_neg (by omega), if_neg (by omega), if_pos (by omega)]
  have e1 : 0xF0 + ((c1 - 0xF0) * 0x40000 + (c2 - 0x80) * 0x1000 + (c3 - 0x80) * 0x40
      + (c4 - 0x80)) / 0x40000 = c1 := by omega
  have e2 : 0x80 + ((c1 - 0xF0) * 0x40000 + (c2 - 0x80) * 0x1000 + (c3 - 0x80) * 0x40
      + (c4 - 0x80)) / 0x1000 % 0x40 = c2 := by omega
  have e3 : 0x80 + ((c1 - 0xF0) * 0x40000 + (c2 - 0x80) * 0x1000 + (c3 - 0x80) * 0x40
      + (c4 - 0x80)) / 0x40 % 0x40 = c3 := by omega
  have e4 : 0x80 + ((c1 - 0xF0) * 0x40000 + (c2 - 0x80) * 0x1000 + (c3 - 0x80) * 0x40
      + (c4 - 0x80)) % 0x40 = c4 := by omega
  rw [e1, e2, e3, e4]

theorem utf8_encode_cons (c : Nat) (cs bs rest : List Nat)
    (h1 : utf8_encode_one c = some bs) (h2 : utf8_encode cs = some rest) :
    utf8_encode (c :: cs) = some (bs ++ rest) := by
  simp only [utf8_encode, h1, h2]

theorem utf8_encode_one_1 (c1 : Nat) (h : c1 < 0x80) : utf8_encode_one c1 = some [c1] := by
  unfold utf8_encode_one
  rw [if_pos h]

/-- Encoding what the decoder read gives the bytes back. -/
theorem utf8_encode_decode (fuel : Nat) :
    ∀ s cs : List Nat, utf8_decode fuel s = some cs → utf8_encode cs = some s := by
  induction fuel with
  | zero =>
    intro s cs h
    cases s with
    | nil =>
      simp only [utf8_decode, Option.some.injEq] at h
      subst h
      rfl
    | cons b bs => simp [utf8_decode] at h
  | succ n ih =>
    intro s cs h
    cases s with
    | nil =>
      simp only [utf8_decode, Option.some.injEq] at h
      subst h
      rfl
    | cons c1 rest =>
      unfold utf8_decode at h
      split_ifs at h with h1 h2 h3 h4 h5
      · simp only [Option.map_eq_some'] at h
        obtain ⟨cs', hd, rfl⟩ := h
        exact utf8_encode_cons _ _ _ _ (utf8_encode_one_1 c1 h1) (ih _ _ hd)
      · split at h
        · split_ifs at h with hc
          simp only [Option.map_eq_some'] at h
          obtain ⟨cs', hd, rfl⟩ := h
          exact utf8_encode_cons _ _ _ _ (utf8_encode_one_2 c1 _ h2 h3 hc) (ih _ _ hd)
        · cases h
      · split at h
        · split_ifs at h with hc
          simp only [Option.map_eq_some'] at h
          obtain ⟨cs', hd, rfl⟩ := h
          exact utf8_encode_cons _ _ _ _ (utf8_encode_one_3 c1 _ _ h3 h4 hc) (ih _ _ hd)
        · cases h
      · split at h
        · split_ifs at h with hc
          simp only [Option.map_eq_some'] at h
          obtain ⟨cs', hd, rfl⟩ := h
          exact utf8_encode_cons _ _ _ _ (utf8_encode_one_4 c1 _ _ _ h4 h5 hc) (ih _ _ hd)
        · cases h

theorem utf8_encode_replicate (n c : Nat) (hc : c < 0x80) :
    utf8_encode (List.replicate n c) = some (List.replicate n c) := by
  induction n with
  | zero => rfl
  | succ k ih =>
    rw [List.replicate_succ]
    exact utf8_encode_cons c _ [c] _ (utf8_encode_one_1 c hc) ih

/-! ## Well-formed input is accepted -/

theorem in_range_iff (b lo hi : Nat) : in_range b lo hi = true ↔ lo ≤ b ∧ b ≤ hi := by
  simp only [in_range, Bool.and_eq_true, decide_eq_true_eq]

/-- The decoder accepts every well-formed byte string, given one unit of fuel
per byte. -/
theorem utf8_decode_accepts (fuel : Nat) :
    ∀ s : List Nat, s.length ≤ fuel → well_formed_utf8 s = true →
      ∃ cs, utf8_decode fuel s = some cs := by
  induction fuel with
  | zero =>
    intro s hl _
    cases s with
    | nil => exact ⟨[], rfl⟩
    | cons b bs => simp only [List.length_cons] at hl; omega
  | succ n ih =>
    intro s hl hwf
    cases s with
    | nil => exact ⟨[], rfl⟩
    | cons b1 rest =>
      simp only [List.length_cons] at hl
      unfold well_formed_utf8 at hwf
      split_ifs at hwf with h1
      · obtain ⟨cs, hcs⟩ := ih rest (by omega) hwf
        rw [in_range_iff] at h1
        refine ⟨b1 :: cs, ?_⟩
        unfold utf8_decode
        rw [if_pos (by omega), hcs]
        rfl
      · rw [in_range_iff] at h1
        cases rest with
        | nil => simp only at hwf; cases hwf
        | cons b2 rest2 =>
          simp only [List.length_cons] at hl
          simp only at hwf
          split_ifs at hwf with h2
          · obtain ⟨cs, hcs⟩ := ih rest2 (by omega) hwf
            simp only [Bool.and_eq_true, in_range_iff] at h2
            have hc : is_cont b2 = true := by
              simp only [is_cont, Bool.and_eq_true, decide_eq_true_eq]; omega
            refine ⟨((b1 - 0xC0) * 0x40 + (b2 - 0x80)) :: cs, ?_⟩
            unfold utf8_decode
            rw [if_neg (by omega), if_neg (by omega), if_pos (by omega)]
            simp only [hc, if_true, hcs]
            rfl
          · cases rest2 with
            | nil => simp only at hwf; cases hwf
            | cons b3 rest3 =>
              simp only [List.length_cons] at hl
              simp only at hwf
              split_ifs at hwf with h3
              · obtain ⟨cs, hcs⟩ := ih rest3 (by omega) hwf
                simp only [Bool.or_eq_true, Bool.and_eq_true, in_range_iff, beq_iff_eq] at h3
                have hc : (is_cont b2 && is_cont b3
                    && !(b1 == 0xE0 && decide (b2 < 0xA0))
                    && !(b1 == 0xED && decide (0xA0 ≤ b2))) = true := by
                  simp only [is_cont, Bool.and_eq_true, decide_eq_true_eq, Bool.not_eq_true',
                    Bool.and_eq_false_iff, beq_eq_false_iff_ne, decide_eq_false_iff_not, ne_eq]
                  omega
                refine ⟨((b1 - 0xE0) * 0x1000 + (b2 - 0x80) * 0x40 + (b3 - 0x80)) :: cs, ?_⟩
                unfold utf8_decode
                rw [if_neg (by omega), if_neg (by omega), if_neg (by omega), if_pos (by omega)]
                simp only [hc, if_true, hcs]
                rfl
              · cases rest3 with
                | nil => simp only at hwf; cases hwf
                | cons b4 rest4 =>
                  simp only [List.length_cons] at hl
                  simp only at hwf
                  split_ifs at hwf with h4
                  obtain ⟨cs, hcs⟩ := ih rest4 (by omega) hwf
                  simp only [Bool.or_eq_true, Bool.and_eq_true, in_range_iff, beq_iff_eq] at h4
                  have hc : (is_cont b2 && is_cont b3 && is_cont b4
                      && !(b1 == 0xF0 && decide (b2 < 0x90))
                      && !(b1 == 0xF4 && decide (0x90 ≤ b2))) = true := by
                    simp only [is_cont, Bool.and_eq_true, decide_eq_true_eq, Bool.not_eq_true',
                      Bool.and_eq_false_iff, beq_eq_false_iff_ne, decide_eq_false_iff_not, ne_eq]
                    omega
                  refine ⟨((b1 - 0xF0) * 0x40000 + (b2 - 0x80) * 0x1000 + (b3 - 0x80) * 0x40
                    + (b4 - 0x80)) :: cs, ?_⟩
                  unfold utf8_decode
                  rw [if_neg (by omega), if_neg (by omega), if_neg (by omega),
                    if_neg (by omega), if_pos (by omega)]
                  simp only [hc, if_true, hcs]
                  rfl

theorem well_formed_utf8_cons1 (b1 : Nat) (rest : List Nat) (h : b1 ≤ 0x7F) :
    well_formed_utf8 (b1 :: rest) = well_formed_utf8 rest := by
  have h1 : in_range b1 0x00 0x7F = true := by rw [in_range_iff]; omega
  rw [well_formed_utf8.eq_def]
  simp only [h1, if_true]

theorem well_formed_utf8_cons2 (b1 b2 : Nat) (rest : List Nat)
    (h : (0xC2 ≤ b1 ∧ b1 ≤ 0xDF) ∧ 0x80 ≤ b2 ∧ b2 ≤ 0xBF) :
    well_formed_utf8 (b1 :: b2 :: rest) = well_formed_utf8 rest := by
  have h1 : ¬ in_range b1 0x00 0x7F = true := by rw [in_range_iff]; omega
  have h2 : (in_range b1 0xC2 0xDF && in_range b2 0x80 0xBF) = true := by
    simp only [Bool.and_eq_true, in_range_iff]; omega
  rw [well_formed_utf8.eq_def]
  simp only [h1, h2, if_true, Bool.false_eq_true, if_false]

theorem well_formed_utf8_cons3 (b1 b2 b3 : Nat) (rest : List Nat)
    (h : (0xE0 ≤ b1 ∧ b1 ≤ 0xEF) ∧ (0x80 ≤ b2 ∧ b2 ≤ 0xBF) ∧ (0x80 ≤ b3 ∧ b3 ≤ 0xBF) ∧
      (b1 = 0xE0 → 0xA0 ≤ b2) ∧ (b1 = 0xED → b2 ≤ 0x9F)) :
    well_formed_utf8 (b1 :: b2 :: b3 :: rest) = well_formed_utf8 rest := by
  have h1 : ¬ in_range b1 0x00 0x7F = true := by rw [in_range_iff]; omega
  have h2 : ¬ (in_range b1 0xC2 0xDF && in_range b2 0x80 0xBF) = true := by
    simp only [Bool.and_eq_true, in_range_iff]; omega
  have h3 : ((b1 == 0xE0 && in_range b2 0xA0 0xBF && in_range b3 0x80 0xBF)
      || (in_range b1 0xE1 0xEC && in_range b2 0x80 0xBF && in_range b3 0x80 0xBF)
      || (b1 == 0xED && in_range b2 0x80 0x9F && in_range b3 0x80 0xBF)
      || (in_range b1 0xEE 0xEF && in_range b2 0x80 0xBF && in_range b3 0x80 0xBF)) = true := by
    simp only [Bool.or_eq_true, Bool.and_eq_true, in_range_iff, beq_iff_eq]; omega
  rw [well_formed_utf8.eq_def]
  simp only [h1, h2, h3, if_true, Bool.false_eq_true, if_false]

theorem well_formed_utf8_cons4 (b1 b2 b3 b4 : Nat) (rest : List Nat)
    (h : (0xF0 ≤ b1 ∧ b1 ≤ 0xF4) ∧ (0x80 ≤ b2 ∧ b2 ≤ 0xBF) ∧ (0x80 ≤ b3 ∧ b3 ≤ 0xBF) ∧
      (0x80 ≤ b4 ∧ b4 ≤ 0xBF) ∧ (b1 = 0xF0 → 0x90 ≤ b2) ∧ (b1 = 0xF4 → b2 ≤ 0x8F)) :
    well_formed_utf8 (b1 :: b2 :: b3 :: b4 :: rest) = well_formed_utf8 rest := by
  have h1 : ¬ in_range b1 0x00 0x7F = true := by rw [in_range_iff]; omega
  have h2 : ¬ (in_range b1 0xC2 0xDF && in_range b2 0x80 0xBF) = true := by
    simp only [Bool.and_eq_true, in_range_iff]; omega
  have h3 : ¬ ((b1 == 0xE0 && in_range b2 0xA0 0xBF && in_range b3 0x80 0xBF)
      || (in_range b1 0xE1 0xEC && in_range b2 0x80 0xBF && in_range b3 0x80 0xBF)
      || (b1 == 0xED && in_range b2 0x80 0x9F && in_range b3 0x80 0xBF)
      || (in_range b1 0xEE 0xEF && in_range b2 0x80 0xBF && in_range b3 0x80 0xBF)) = true := by
    simp only [Bool.or_eq_true, Bool.and_eq_true, in_range_iff, beq_iff_eq]; omega
  have h4 : ((b1 == 0xF0 && in_range b2 0x90 0xBF && in_range b3 0x80 0xBF
        && in_range b4 0x80 0xBF)
      || (in_range b1 0xF1 0xF3 && in_range b2 0x80 0xBF && in_range b3 0x80 0xBF
        && in_range b4 0x80 0xBF)
      || (b1 == 0xF4 && in_range b2 0x80 0x8F && in_range b3 0x80 0xBF
        && in_range b4 0x80 0xBF)) = true := by
    simp only [Bool.or_eq_true, Bool.and_eq_true, in_range_iff, beq_iff_eq]; omega
  rw [well_formed_utf8.eq_def]
  simp only [h1, h2, h3, h4, if_true, Bool.false_eq_true, if_false]

/-- The encoding of any sequence of scalar values is well-formed. -/
theorem utf8_encode_well_formed :
    ∀ cs s : List Nat, utf8_encode cs = some s → well_formed_utf8 s = true := by
  intro cs
  induction cs with
  | nil =>
    intro s h
    simp only [utf8_encode, Option.some.injEq] at h
    subst h
    rfl
  | cons c cs ih =>
    intro s h
    unfold utf8_encode at h
    cases h1 : utf8_encode_one c with
    | none => simp only [h1] at h; cases h
    | some bs =>
      cases h2 : utf8_encode cs with
      | none => simp only [h1, h2] at h; cases h
      | some rest =>
        simp only [h1, h2, Option.some.injEq] at h
        subst h
        have hrest := ih rest h2
        unfold utf8_encode_one at h1
        split_ifs at h1 with a1 a2 a3 a4 a5
        · cases h1
          rw [List.singleton_append, well_formed_utf8_cons1 c rest (by omega)]
          exact hrest
        · cases h1
          simp only [List.cons_append, List.nil_append]
          rw [well_formed_utf8_cons2 _ _ rest (by omega)]
          exact hrest
        · cases h1
          simp only [Bool.and_eq_true, decide_eq_true_eq] at a4
          simp only [List.cons_append, List.nil_append]
          rw [well_formed_utf8_cons3 _ _ _ rest (by omega)]
          exact hrest
        · cases h1
          simp only [List.cons_append, List.nil_append]
          rw [well_formed_utf8_cons4 _ _ _ _ rest (by omega)]
          exact hrest

/-- Whatever the encoder accepts is a sequence of Unicode scalar values. -/
theorem utf8_encode_scalar :
    ∀ cs s : List Nat, utf8_encode cs = some s →
      ∀ c ∈ cs, c < 0x110000 ∧ ¬ (0xD800 ≤ c ∧ c < 0xE000) := by
  intro cs
  induction cs with
  | nil => intro s _ c hc; cases hc
  | cons c0 cs ih =>
    intro s h c hc
    unfold utf8_encode at h
    cases h1 : utf8_encode_one c0 with
    | none => simp only [h1] at h; cases h
    | some bs =>
      cases h2 : utf8_encode cs with
      | none => simp only [h1, h2] at h; cases h
      | some rest =>
        rcases List.mem_cons.mp hc with hc0 | hcs
        · subst hc0
          unfold utf8_encode_one at h1
          split_ifs at h1 with a1 a2 a3 a4 a5
          · omega
          · omega
          · simp only [Bool.and_eq_true, decide_eq_true_eq] at a4
            omega
          · omega
        · exact ih rest h2 c hcs

/-- The well-formed byte strings are exactly the ones the decoder accepts. -/
theorem well_formed_utf8_iff_decodes (s : List Nat) :
    well_formed_utf8 s = true ↔ ∃ cs, codecvt_utf8.from_bytes s = some cs := by
  constructor
  · intro h
    exact utf8_decode_accepts s.length s (le_refl _) h
  · rintro ⟨cs, h⟩
    exact utf8_encode_well_formed cs s (utf8_encode_decode s.length s cs h)

/-! ## The exported state -/

/-- The value `GetState()` returns once `to_bytes` has produced `bytes`. -/
theorem GetState_eq (convert : WStringConvert) (m : TextInputModel) (bytes : List Nat)
    (h : convert.to_bytes m.text_ = some bytes) :
    m.GetState convert = some (.array [.int m.client_id_, .object [
      (kComposingBaseKey, .int (-1)),
      (kComposingExtentKey, .int (-1)),
      (kSelectionAffinityKey, .string kAffinityDownstream),
      (kSelectionBaseKey, .int (static_cast_int m.selection_base_)),
      (kSelectionExtentKey, .int (static_cast_int m.selection_extent_)),
      (kSelectionIsDirectionalKey, .bool false),
      (kTextKey, .string bytes)]]) := by
  simp only [TextInputModel.GetState, h, u32_begin, sub_zero]
  rfl

/-- `GetState()` returns exactly when `to_bytes` does. -/
theorem GetState_some (convert : WStringConvert) (m : TextInputModel) (j : JsonValue)
    (h : m.GetState convert = some j) : ∃ bytes, convert.to_bytes m.text_ = some bytes := by
  cases hb : convert.to_bytes m.text_ with
  | none =>
    simp only [TextInputModel.GetState, hb] at h
    cases h
  | some bytes => exact ⟨bytes, rfl⟩

theorem static_cast_int_id (d : Int) (h0 : 0 ≤ d) (h1 : d < 2 ^ 31) : static_cast_int d = d := by
  unfold static_cast_int
  omega

theorem apply_client_id (convert : WStringConvert) (op : Op) (m : TextInputModel) :
    (op.apply convert m).client_id_ = m.client_id_ := by
  cases op with
  | SetEditingState b e t =>
    simp only [Op.apply, TextInputModel.SetEditingState]
    split
    · rfl
    · split <;> rfl
  | AddCharacter c =>
    simp only [Op.apply, TextInputModel.AddCharacter]
    split <;> rfl
  | Insert t =>
    simp only [Op.apply, TextInputModel.Insert]
    split
    · rfl
    · cases convert.from_bytes t with
      | none => rfl
      | some u32text =>
        simp only [Option.map_some', Option.getD_some]
        split <;> rfl
  | Backspace =>
    simp only [Op.apply, TextInputModel.Backspace]
    split
    · rfl
    · split <;> rfl
  | Delete =>
    simp only [Op.apply, TextInputModel.Delete]
    split
    · rfl
    · split <;> rfl
  | Cut =>
    simp only [Op.apply, TextInputModel.Cut]
    split <;> rfl
  | SelectAll =>
    simp only [Op.apply, TextInputModel.SelectAll]
    split <;> rfl
  | MoveCursorToBeginning => rfl
  | MoveCursorToEnd => rfl
  | MoveCursorForward =>
    simp only [Op.apply, TextInputModel.MoveCursorForward]
    split
    · rfl
    · split <;> rfl
  | MoveCursorBack =>
    simp only [Op.apply, TextInputModel.MoveCursorBack]
    split
    · rfl
    · split <;> rfl
  | MoveSelectForward =>
    simp only [Op.apply, TextInputModel.MoveSelectForward]
    split
    · rfl
    · split <;> rfl
  | MoveSelectBack =>
    simp only [Op.apply, TextInputModel.MoveSelectBack]
    split
    · rfl
    · split <;> rfl

theorem run_client_id (convert : WStringConvert) (ops : List Op) :
    ∀ m : TextInputModel, (run convert ops m).client_id_ = m.client_id_ := by
  induction ops with
  | nil => intro m; rfl
  | cons op rest ih =>
    intro m
    exact (ih (op.apply convert m)).trans (apply_client_id convert op m)

theorem reached_client_id (convert : WStringConvert) (client_id : Int)
    (input_action input_type : String) (ops : List Op) :
    (reached convert client_id input_action input_type ops).client_id_ = client_id :=
  run_client_id convert ops _

/-- The model right after a `SetEditingState(n, n, text)` that passes the
checks, on a fresh model. -/
theorem reached_SetEditingState_caret (convert : WStringConvert) (client_id : Int)
    (input_action input_type : String) (n : Nat) (text : List Nat) (hn : n ≤ text.length) :
    reached convert client_id input_action input_type [.SetEditingState n n text]
      = TextInputModel.mk text client_id input_action input_type n n n := by
  have h1 : ¬ n > n := by omega
  have h2 : ¬ n > text.length := by omega
  simp only [reached, run, List.foldl_cons, List.foldl_nil, Op.apply,
    TextInputModel.SetEditingState, if_neg h1, if_neg h2, TextInputModel.new, u32_begin,
    zero_add]

/-- What `GetState()` exports for a text of `n` copies of an ASCII value with
the caret at its end. -/
theorem GetState_caret_at_end (client_id : Int) (input_action input_type : String)
    (n c : Nat) (hc : c < 0x80) :
    let m := reached codecvt_utf8 client_id input_action input_type
      [.SetEditingState n n (List.replicate n c)]
    m.selection_base_ = (n : Int) ∧
      ∃ es, m.GetState codecvt_utf8 = some (.array [.int client_id, es]) ∧
        es.member kSelectionBaseKey = some (.int (static_cast_int (n : Int))) := by
  intro m
  have hm : m = TextInputModel.mk (List.replicate n c) client_id input_action input_type
      (n : Int) (n : Int) (n : Int) :=
    reached_SetEditingState_caret codecvt_utf8 client_id input_action input_type n _
      (by rw [List.length_replicate])
  have hb : codecvt_utf8.to_bytes m.text_ = some (List.replicate n c) := by
    rw [hm]
    exact utf8_encode_replicate n c hc
  have hg := GetState_eq codecvt_utf8 m _ hb
  rw [hm] at hg ⊢
  exact ⟨rfl, _, hg, rfl⟩

/-! ## Claims -/

/-- C1: in every state reached from a freshly constructed model by a finite
sequence of public operations, `selection_base_` and `selection_extent_` are
offsets in `[0, len(text_)]`. -/
theorem C1_selection_in_bounds (convert : WStringConvert) (client_id : Int)
    (input_action input_type : String) (ops : List Op) :
    let m := reached convert client_id input_action input_type ops
    (0 ≤ m.selection_base_ ∧ m.selection_base_ ≤ (m.text_.length : Int)) ∧
      (0 ≤ m.selection_extent_ ∧ m.selection_extent_ ≤ (m.text_.length : Int)) := by
  intro m
  have h : Ordered m := reached_ordered convert client_id input_action input_type ops
  obtain ⟨h0, h1, h2⟩ := h
  exact ⟨⟨h0, by omega⟩, by omega, h2⟩

/-- C2, as stated, fails: after `SetEditingState(1, 1, "abc")`,
`MoveSelectForward()` and `MoveCursorBack()` the selection is collapsed at 1
while `selection_cursor_` is still 2, equal to neither end. The text is not
touched after the first call, so all three iterators are live. -/
theorem C2_cursor_stale_after_collapse :
    let m := reached codecvt_utf8 0 "" ""
      [.SetEditingState 1 1 (u32 "abc"), .MoveSelectForward, .MoveCursorBack]
    m.selection_base_ = 1 ∧ m.selection_extent_ = 1 ∧ m.selection_cursor_ = 2 ∧
      ¬ (m.selection_cursor_ = m.selection_base_ ∨
          m.selection_cursor_ = m.selection_extent_) := by
  decide

/-- C2, amended: in every reached state in which a selection is active
(`selection_base_ != selection_extent_`), `selection_cursor_` equals
`selection_base_` or `selection_extent_`. -/
theorem C2_cursor_on_active_selection (convert : WStringConvert) (client_id : Int)
    (input_action input_type : String) (ops : List Op) :
    let m := reached convert client_id input_action input_type ops
    m.selection_base_ ≠ m.selection_extent_ →
      m.selection_cursor_ = m.selection_base_ ∨
        m.selection_cursor_ = m.selection_extent_ :=
  reached_cursorOnEnd convert client_id input_action input_type ops

/-- Witness for C2 (amended): after `SetEditingState(0, 0, "abc")` and two
`MoveSelectForward()` the selection is `[0, 2)` and the cursor is on the
extent. -/
theorem C2_cursor_on_active_selection_witness :
    let m := reached codecvt_utf8 7 "done" "text"
      [.SetEditingState 0 0 (u32 "abc"), .MoveSelectForward, .MoveSelectForward]
    m.selection_base_ ≠ m.selection_extent_ ∧
      (m.selection_cursor_ = m.selection_base_ ∨
        m.selection_cursor_ = m.selection_extent_) :=
  ⟨by decide, C2_cursor_on_active_selection codecvt_utf8 7 "done" "text"
    [.SetEditingState 0 0 (u32 "abc"), .MoveSelectForward, .MoveSelectForward] (by decide)⟩

/-- C3: `SetEditingState(base, extent, text)` returns true exactly when
`base <= extent` and `extent <= len(text)`; on true the text is the argument,
base and extent are the arguments and the cursor is `extent` (the other members
are kept); on false the model is exactly as before. -/
theorem C3_SetEditingState_validation (m : TextInputModel) (base extent : Nat)
    (text : List Nat) :
    let r := m.SetEditingState base extent text
    (r.1 = true ↔ base ≤ extent ∧ extent ≤ text.length) ∧
      (r.1 = true →
        r.2.text_ = text ∧ r.2.selection_base_ = (base : Int) ∧
          r.2.selection_extent_ = (extent : Int) ∧
          r.2.selection_cursor_ = (extent : Int) ∧
          r.2.client_id_ = m.client_id_ ∧ r.2.input_action_ = m.input_action_ ∧
          r.2.input_type_ = m.input_type_) ∧
      (r.1 = false → r.2 = m) := by
  intro r
  by_cases h1 : base > extent
  · have hr : r = (false, m) := by
      simp only [r, TextInputModel.SetEditingState, if_pos h1]
    rw [hr]
    refine ⟨⟨fun h => (by cases h), fun h => (by omega)⟩, fun h => (by cases h), fun _ => rfl⟩
  · by_cases h2 : extent > text.length
    · have hr : r = (false, m) := by
        simp only [r, TextInputModel.SetEditingState, if_neg h1, if_pos h2]
      rw [hr]
      refine ⟨⟨fun h => (by cases h), fun h => (by omega)⟩, fun h => (by cases h), fun _ => rfl⟩
    · have hr : r = (true, { m with
          text_ := text, selection_base_ := (base : Int)
          selection_extent_ := (extent : Int), selection_cursor_ := (extent : Int) }) := by
        simp only [r, TextInputModel.SetEditingState, if_neg h1, if_neg h2, u32_begin,
          zero_add]
      rw [hr]
      refine ⟨⟨fun _ => (by omega), fun _ => rfl⟩, fun _ => ?_, fun h => (by cases h)⟩
      exact ⟨rfl, rfl, rfl, rfl, rfl, rfl, rfl⟩

/-- C4, as stated, fails: after `SetEditingState(2, 5, "hello world")` the call
succeeds but `GetSelected()` is "llo" (offsets 2, 3, 4), not "lo w". -/
theorem C4_selected_is_not_lo_w :
    let r := (TextInputModel.new 0 "" "").SetEditingState 2 5 (u32 "hello world")
    r.1 = true ∧ r.2.GetSelected = u32 "llo" ∧ r.2.GetSelected ≠ u32 "lo w" := by
  decide

/-- C4, amended: on any model `SetEditingState(2, 5, "hello world")` returns
true and `GetSelected()` immediately afterwards is "llo"; and
`SetEditingState(5, 2, t)` returns false for every text `t` and leaves the
model unchanged. -/
theorem C4_hello_world_selection (m : TextInputModel) (t : List Nat) :
    (m.SetEditingState 2 5 (u32 "hello world")).1 = true ∧
      (m.SetEditingState 2 5 (u32 "hello world")).2.GetSelected = u32 "llo" ∧
      (m.SetEditingState 5 2 t).1 = false ∧ (m.SetEditingState 5 2 t).2 = m := by
  have hw : u32 "hello world" = [104, 101, 108, 108, 111, 32, 119, 111, 114, 108, 100] := by
    decide
  have hl : u32 "llo" = [108, 108, 111] := by decide
  rw [hw, hl]
  refine ⟨rfl, rfl, rfl, rfl⟩

/-- C5: in every reached state, with `lo = min(base, extent)` and
`hi = max(base, extent)`, `AddCharacter(c)` leaves the text
`text[0..lo) ++ [c] ++ text[hi..len)` with base = extent = `lo + 1`, so the
length is `len - (hi - lo) + 1`; and from the fresh model `AddCharacter('a')`,
`AddCharacter('b')` give "ab" with base = extent = 2. -/
theorem C5_AddCharacter_post (convert : WStringConvert) (client_id : Int)
    (input_action input_type : String) (ops : List Op) (c : Nat) :
    (let m := reached convert client_id input_action input_type ops
     let lo := min m.selection_base_ m.selection_extent_
     let hi := max m.selection_base_ m.selection_extent_
     let m' := m.AddCharacter c
     m'.text_ = m.text_.take lo.toNat ++ [c] ++ m.text_.drop hi.toNat ∧
       m'.selection_base_ = lo + 1 ∧ m'.selection_extent_ = lo + 1 ∧
       (m'.text_.length : Int) = (m.text_.length : Int) - (hi - lo) + 1) ∧
    (let ab := reached convert client_id input_action input_type
       [.AddCharacter 97, .AddCharacter 98]
     ab.text_ = u32 "ab" ∧ ab.selection_base_ = 2 ∧ ab.selection_extent_ = 2) := by
  refine ⟨?_, rfl, rfl, rfl⟩
  intro m lo hi m'
  have h : Ordered m := reached_ordered convert client_id input_action input_type ops
  have hm : m' = _ := AddCharacter_eq c m h
  obtain ⟨h0, h1, h2⟩ := h
  have hlo : lo = m.selection_base_ := min_eq_left h1
  have hhi : hi = m.selection_extent_ := max_eq_right h1
  rw [hm, hlo, hhi]
  refine ⟨rfl, rfl, rfl, ?_⟩
  simp only [List.length_append, List.length_take, List.length_drop, List.length_cons,
    List.length_nil]
  omega

/-- C6: `Insert` of the empty byte string returns false and changes nothing;
in every reached state, for a non-empty input that `from_bytes` decodes to a
non-empty run `cs`, `Insert` returns true and leaves exactly the model that
`AddCharacter(c1)`, ..., `AddCharacter(cn)` leave: the selection is replaced by
the run and base = extent = `min(base, extent) + n`. -/
theorem C6_Insert_as_AddCharacter_run (convert : WStringConvert) (client_id : Int)
    (input_action input_type : String) (ops : List Op) (bytes cs : List Nat)
    (hb : bytes ≠ []) (hd : convert.from_bytes bytes = some cs) (hn : cs ≠ []) :
    (∀ m0 : TextInputModel, m0.Insert convert [] = some (false, m0)) ∧
    (let m := reached convert client_id input_action input_type ops
     let lo := min m.selection_base_ m.selection_extent_
     let hi := max m.selection_base_ m.selection_extent_
     let r := cs.foldl (fun acc c => acc.AddCharacter c) m
     m.Insert convert bytes = some (true, r) ∧
       r.text_ = m.text_.take lo.toNat ++ cs ++ m.text_.drop hi.toNat ∧
       r.selection_base_ = lo + (cs.length : Int) ∧
       r.selection_extent_ = lo + (cs.length : Int)) := by
  refine ⟨fun _ => rfl, ?_⟩
  intro m lo hi r
  have h : Ordered m := reached_ordered convert client_id input_action input_type ops
  have hlo : lo = m.selection_base_ := min_eq_left h.2.1
  have hhi : hi = m.selection_extent_ := max_eq_right h.2.1
  cases cs with
  | nil => exact absurd rfl hn
  | cons c rest =>
    have hr : r = _ := foldl_AddCharacter_eq c rest m h
    rw [Insert_eq convert bytes (c :: rest) m hb hd h, hr, hlo, hhi]
    exact ⟨rfl, rfl, rfl, rfl⟩

/-- Witness for C6: with "abcd" and the selection `[1, 3)`, inserting the
bytes C3 A9 41 (U+00E9, U+0041) gives "a", U+00E9, "A", "d" with the caret at 3,
as the two `AddCharacter` calls do. -/
theorem C6_Insert_as_AddCharacter_run_witness :
    ([0xC3, 0xA9, 0x41] : List Nat) ≠ [] ∧
    codecvt_utf8.from_bytes [0xC3, 0xA9, 0x41] = some [0xE9, 0x41] ∧
    (let m := reached codecvt_utf8 1 "" "" [.SetEditingState 1 3 (u32 "abcd")]
     let r := (m.AddCharacter 0xE9).AddCharacter 0x41
     m.Insert codecvt_utf8 [0xC3, 0xA9, 0x41] = some (true, r) ∧
       r.text_ = [97, 0xE9, 0x41, 100] ∧ r.selection_base_ = 3 ∧
       r.selection_extent_ = 3) :=
  ⟨by decide, by decide,
    (C6_Insert_as_AddCharacter_run codecvt_utf8 1 "" "" [.SetEditingState 1 3 (u32 "abcd")]
      [0xC3, 0xA9, 0x41] [0xE9, 0x41] (by decide) (by decide) (by decide)).2.1,
    by decide, by decide, by decide⟩

/-- C7: `Backspace()` in every reached state. (1) With an active selection the
code units of `[min(base, extent), max(base, extent))` are removed, base =
extent = the lower bound, and it returns true; so "hello" with the selection
`[0, 5)` becomes "" with base = extent = 0. (2) With base = extent = p > 0 the
code unit at index `p - 1` alone is removed, base = extent = `p - 1`, and it
returns true. (3) With base = extent = 0 it returns false and the model is
unchanged. -/
theorem C7_Backspace_cases (convert : WStringConvert) (client_id : Int)
    (input_action input_type : String) (ops : List Op) :
    (let m := reached convert client_id input_action input_type ops
     let lo := min m.selection_base_ m.selection_extent_
     let hi := max m.selection_base_ m.selection_extent_
     (m.selection_base_ ≠ m.selection_extent_ →
        m.Backspace.1 = true ∧
        m.Backspace.2.text_ = m.text_.take lo.toNat ++ m.text_.drop hi.toNat ∧
        m.Backspace.2.selection_base_ = lo ∧ m.Backspace.2.selection_extent_ = lo) ∧
     (m.selection_base_ = m.selection_extent_ → 0 < m.selection_base_ →
        m.Backspace.1 = true ∧
        m.Backspace.2.text_ = m.text_.eraseIdx (m.selection_base_ - 1).toNat ∧
        m.Backspace.2.selection_base_ = m.selection_base_ - 1 ∧
        m.Backspace.2.selection_extent_ = m.selection_base_ - 1) ∧
     (m.selection_base_ = m.selection_extent_ → m.selection_base_ = 0 →
        m.Backspace = (false, m))) ∧
    (let hello := (reached convert client_id input_action input_type
       [.SetEditingState 0 5 (u32 "hello")]).Backspace
     hello.1 = true ∧ hello.2.text_ = [] ∧ hello.2.selection_base_ = 0 ∧
       hello.2.selection_extent_ = 0) := by
  refine ⟨?_, rfl, rfl, rfl, rfl⟩
  intro m lo hi
  have h : Ordered m := reached_ordered convert client_id input_action input_type ops
  have hlo : lo = m.selection_base_ := min_eq_left h.2.1
  have hhi : hi = m.selection_extent_ := max_eq_right h.2.1
  rw [hlo, hhi]
  refine ⟨fun hne => ?_, fun heq hpos => ?_, fun heq hz => ?_⟩
  · simp only [TextInputModel.Backspace, if_pos hne, TextInputModel.DeleteSelected,
      u32_erase, and_self]
  · have hne : ¬ m.selection_base_ ≠ m.selection_extent_ := fun hc => hc heq
    have hb : m.selection_base_ ≠ u32_begin m.text_ := by
      simp only [u32_begin]; omega
    have he := u32_erase_one m.text_ (m.selection_base_ - 1) (by omega)
    rw [sub_add_cancel] at he
    simp only [TextInputModel.Backspace, if_neg hne, if_pos hb, he, and_self]
  · have hne : ¬ m.selection_base_ ≠ m.selection_extent_ := fun hc => hc heq
    have hb : ¬ m.selection_base_ ≠ u32_begin m.text_ := by
      simp only [u32_begin]; omega
    simp only [TextInputModel.Backspace, if_neg hne, if_neg hb]

/-- Witness for C7: "hello" with the caret at 2 loses the "e" at index 1; with
the caret at 0 nothing happens; with `[1, 4)` selected "ell" goes. -/
theorem C7_Backspace_cases_witness :
    (let m := reached codecvt_utf8 0 "" "" [.SetEditingState 2 2 (u32 "hello")]
     (m.selection_base_ = m.selection_extent_ ∧ 0 < m.selection_base_) ∧
       m.Backspace.1 = true ∧ m.Backspace.2.text_ = u32 "hllo" ∧
       m.Backspace.2.selection_base_ = 1 ∧ m.Backspace.2.selection_extent_ = 1) ∧
    (let m := reached codecvt_utf8 0 "" "" [.SetEditingState 0 0 (u32 "hello")]
     (m.selection_base_ = m.selection_extent_ ∧ m.selection_base_ = 0) ∧
       m.Backspace = (false, m)) ∧
    (let m := reached codecvt_utf8 0 "" "" [.SetEditingState 1 4 (u32 "hello")]
     m.selection_base_ ≠ m.selection_extent_ ∧
       m.Backspace.1 = true ∧ m.Backspace.2.text_ = u32 "ho" ∧
       m.Backspace.2.selection_base_ = 1 ∧ m.Backspace.2.selection_extent_ = 1) :=
  ⟨⟨⟨by decide, by decide⟩,
      ((C7_Backspace_cases codecvt_utf8 0 "" ""
        [.SetEditingState 2 2 (u32 "hello")]).1.2.1 (by decide) (by decide)).1,
      by decide, by decide, by decide⟩,
    ⟨⟨by decide, by decide⟩,
      (C7_Backspace_cases codecvt_utf8 0 "" ""
        [.SetEditingState 0 0 (u32 "hello")]).1.2.2 (by decide) (by decide)⟩,
    ⟨by decide,
      ((C7_Backspace_cases codecvt_utf8 0 "" ""
        [.SetEditingState 1 4 (u32 "hello")]).1.1 (by decide)).1,
      by decide, by decide, by decide⟩⟩

/-- C8: `Delete()` in every reached state. (1) With an active selection the
code units of `[min(base, extent), max(base, extent))` are removed, base =
extent = the lower bound, and it returns true. (2) With base = extent = p <
len(text) the code unit at index `p` alone is removed, base = extent = `p`, and
it returns true. (3) With base = extent = len(text) it returns false and the
model is unchanged. -/
theorem C8_Delete_cases (convert : WStringConvert) (client_id : Int)
    (input_action input_type : String) (ops : List Op) :
    let m := reached convert client_id input_action input_type ops
    let lo := min m.selection_base_ m.selection_extent_
    let hi := max m.selection_base_ m.selection_extent_
    (m.selection_base_ ≠ m.selection_extent_ →
       m.Delete.1 = true ∧
       m.Delete.2.text_ = m.text_.take lo.toNat ++ m.text_.drop hi.toNat ∧
       m.Delete.2.selection_base_ = lo ∧ m.Delete.2.selection_extent_ = lo) ∧
    (m.selection_base_ = m.selection_extent_ →
       m.selection_base_ < (m.text_.length : Int) →
       m.Delete.1 = true ∧
       m.Delete.2.text_ = m.text_.eraseIdx m.selection_base_.toNat ∧
       m.Delete.2.selection_base_ = m.selection_base_ ∧
       m.Delete.2.selection_extent_ = m.selection_base_) ∧
    (m.selection_base_ = m.selection_extent_ →
       m.selection_base_ = (m.text_.length : Int) →
       m.Delete = (false, m)) := by
  intro m lo hi
  have h : Ordered m := reached_ordered convert client_id input_action input_type ops
  have hlo : lo = m.selection_base_ := min_eq_left h.2.1
  have hhi : hi = m.selection_extent_ := max_eq_right h.2.1
  rw [hlo, hhi]
  refine ⟨fun hne => ?_, fun heq hlt => ?_, fun heq hz => ?_⟩
  · simp only [TextInputModel.Delete, if_pos hne, TextInputModel.DeleteSelected,
      u32_erase, and_self]
  · have hne : ¬ m.selection_base_ ≠ m.selection_extent_ := fun hc => hc heq
    have hb : m.selection_base_ ≠ u32_end m.text_ := by
      simp only [u32_end]; omega
    have he := u32_erase_one m.text_ m.selection_base_ h.1
    simp only [TextInputModel.Delete, if_neg hne, if_pos hb, he, and_self]
  · have hne : ¬ m.selection_base_ ≠ m.selection_extent_ := fun hc => hc heq
    have hb : ¬ m.selection_base_ ≠ u32_end m.text_ := by
      simp only [u32_end]; omega
    simp only [TextInputModel.Delete, if_neg hne, if_neg hb]

/-- Witness for C8: "hello" with the caret at 2 loses the "l" at index 2; with
the caret at 5 nothing happens; with `[1, 4)` selected "ell" goes. -/
theorem C8_Delete_cases_witness :
    (let m := reached codecvt_utf8 0 "" "" [.SetEditingState 2 2 (u32 "hello")]
     (m.selection_base_ = m.selection_extent_ ∧
         m.selection_base_ < (m.text_.length : Int)) ∧
       m.Delete.1 = true ∧ m.Delete.2.text_ = u32 "helo" ∧
       m.Delete.2.selection_base_ = 2 ∧ m.Delete.2.selection_extent_ = 2) ∧
    (let m := reached codecvt_utf8 0 "" "" [.SetEditingState 5 5 (u32 "hello")]
     (m.selection_base_ = m.selection_extent_ ∧
         m.selection_base_ = (m.text_.length : Int)) ∧
       m.Delete = (false, m)) ∧
    (let m := reached codecvt_utf8 0 "" "" [.SetEditingState 1 4 (u32 "hello")]
     m.selection_base_ ≠ m.selection_extent_ ∧
       m.Delete.1 = true ∧ m.Delete.2.text_ = u32 "ho" ∧
       m.Delete.2.selection_base_ = 1 ∧ m.Delete.2.selection_extent_ = 1) :=
  ⟨⟨⟨by decide, by decide⟩,
      ((C8_Delete_cases codecvt_utf8 0 "" ""
        [.SetEditingState 2 2 (u32 "hello")]).2.1 (by decide) (by decide)).1,
      by decide, by decide, by decide⟩,
    ⟨⟨by decide, by decide⟩,
      (C8_Delete_cases codecvt_utf8 0 "" ""
        [.SetEditingState 5 5 (u32 "hello")]).2.2 (by decide) (by decide)⟩,
    ⟨by decide,
      ((C8_Delete_cases codecvt_utf8 0 "" ""
        [.SetEditingState 1 4 (u32 "hello")]).1 (by decide)).1,
      by decide, by decide, by decide⟩⟩

/-- C9: `Cut()` in every reached state. With base = extent it returns the
empty string and leaves the model (text, base, extent, cursor) unchanged. With
base != extent it returns what `GetSelected()` returned before the call, the
code units of `[min(base, extent), max(base, extent))`; the new text is the old
one with that range removed, base = extent = the lower bound `lo`, and
old text = `new_text[0..lo) ++ returned ++ new_text[lo..)`. -/
theorem C9_Cut_cases (convert : WStringConvert) (client_id : Int)
    (input_action input_type : String) (ops : List Op) :
    let m := reached convert client_id input_action input_type ops
    let lo := min m.selection_base_ m.selection_extent_
    let hi := max m.selection_base_ m.selection_extent_
    (m.selection_base_ = m.selection_extent_ → m.Cut = ([], m)) ∧
    (m.selection_base_ ≠ m.selection_extent_ →
       m.Cut.1 = m.GetSelected ∧
       m.Cut.1 = (m.text_.drop lo.toNat).take (hi.toNat - lo.toNat) ∧
       m.Cut.2.text_ = m.text_.take lo.toNat ++ m.text_.drop hi.toNat ∧
       m.Cut.2.selection_base_ = lo ∧ m.Cut.2.selection_extent_ = lo ∧
       m.text_ = m.Cut.2.text_.take lo.toNat ++ m.Cut.1 ++ m.Cut.2.text_.drop lo.toNat) := by
  intro m lo hi
  have h : Ordered m := reached_ordered convert client_id input_action input_type ops
  have hlo : lo = m.selection_base_ := min_eq_left h.2.1
  have hhi : hi = m.selection_extent_ := max_eq_right h.2.1
  rw [hlo, hhi]
  refine ⟨fun heq => ?_, fun hne => ?_⟩
  · have hne : ¬ m.selection_base_ ≠ m.selection_extent_ := fun hc => hc heq
    simp only [TextInputModel.Cut, if_neg hne]
  · have hr := u32_range_restore m.text_ m.selection_base_ m.selection_extent_ h.2.1 h.2.2
    simp only [TextInputModel.Cut, TextInputModel.GetSelected, if_pos hne,
      TextInputModel.DeleteSelected, hr, true_and, and_true]
    exact ⟨rfl, rfl⟩

/-- Witness for C9: with "hello" and `[1, 4)` selected `Cut()` returns "ell"
and leaves "ho" with the caret at 1; with the caret at 3 it returns "" and
changes nothing. -/
theorem C9_Cut_cases_witness :
    (let m := reached codecvt_utf8 0 "" "" [.SetEditingState 1 4 (u32 "hello")]
     m.selection_base_ ≠ m.selection_extent_ ∧ m.Cut.1 = m.GetSelected ∧
       m.Cut.1 = u32 "ell" ∧ m.Cut.2.text_ = u32 "ho" ∧
       m.Cut.2.selection_base_ = 1 ∧ m.Cut.2.selection_extent_ = 1) ∧
    (let m := reached codecvt_utf8 0 "" "" [.SetEditingState 3 3 (u32 "hello")]
     m.selection_base_ = m.selection_extent_ ∧ m.Cut = ([], m)) :=
  ⟨⟨by decide,
      ((C9_Cut_cases codecvt_utf8 0 "" ""
        [.SetEditingState 1 4 (u32 "hello")]).2 (by decide)).1,
      by decide, by decide, by decide, by decide⟩,
    ⟨by decide,
      (C9_Cut_cases codecvt_utf8 0 "" ""
        [.SetEditingState 3 3 (u32 "hello")]).1 (by decide)⟩⟩

/-- C10: `SelectAll()` in every reached state. On a non-empty text it returns
true, keeps the text and sets base = 0, extent = len(text), cursor =
len(text). On an empty text it returns false, changes nothing, and base =
extent = 0. -/
theorem C10_SelectAll_cases (convert : WStringConvert) (client_id : Int)
    (input_action input_type : String) (ops : List Op) :
    let m := reached convert client_id input_action input_type ops
    (m.text_ ≠ [] →
       m.SelectAll.1 = true ∧ m.SelectAll.2.text_ = m.text_ ∧
       m.SelectAll.2.selection_base_ = 0 ∧
       m.SelectAll.2.selection_extent_ = (m.text_.length : Int) ∧
       m.SelectAll.2.selection_cursor_ = (m.text_.length : Int)) ∧
    (m.text_ = [] →
       m.SelectAll = (false, m) ∧ m.selection_base_ = 0 ∧ m.selection_extent_ = 0) := by
  intro m
  have h : Ordered m := reached_ordered convert client_id input_action input_type ops
  refine ⟨fun hne => ?_, fun hnil => ?_⟩
  · have he : ¬ m.text_.isEmpty = true := by
      rw [List.isEmpty_iff]; exact hne
    simp only [TextInputModel.SelectAll, if_pos he, u32_begin, u32_end, and_self]
  · have he : ¬ ¬ m.text_.isEmpty = true := by
      rw [List.isEmpty_iff]; exact fun hc => hc hnil
    obtain ⟨h0, h1, h2⟩ := h
    rw [hnil] at h2
    simp only [List.length_nil, Nat.cast_zero] at h2
    refine ⟨?_, by omega, by omega⟩
    simp only [TextInputModel.SelectAll, if_neg he]

/-- Witness for C10: on "abc" with the caret at 1 `SelectAll()` returns true
and selects `[0, 3)` with the cursor at 3; on the fresh, empty model it returns
false and changes nothing. -/
theorem C10_SelectAll_cases_witness :
    (let m := reached codecvt_utf8 0 "" "" [.SetEditingState 1 1 (u32 "abc")]
     m.text_ ≠ [] ∧ m.SelectAll.1 = true ∧ m.SelectAll.2.text_ = u32 "abc" ∧
       m.SelectAll.2.selection_base_ = 0 ∧ m.SelectAll.2.selection_extent_ = 3 ∧
       m.SelectAll.2.selection_cursor_ = 3) ∧
    (let m := reached codecvt_utf8 0 "" "" []
     m.text_ = [] ∧ m.SelectAll = (false, m) ∧ m.selection_base_ = 0 ∧
       m.selection_extent_ = 0) :=
  ⟨⟨by decide,
      ((C10_SelectAll_cases codecvt_utf8 0 "" ""
        [.SetEditingState 1 1 (u32 "abc")]).1 (by decide)).1,
      by decide, by decide, by decide, by decide⟩,
    ⟨by decide,
      (C10_SelectAll_cases codecvt_utf8 0 "" "" []).2 (by decide)⟩⟩

/-- C11: `MoveSelectForward()` in every reached state; the text never changes.
If base != extent and cursor = base, base and cursor each go up by one, extent
stays, and it returns true. Otherwise, if extent < len(text), extent goes up by
one, cursor becomes the new extent, base stays, and it returns true. Otherwise
it returns false and the model is unchanged. -/
theorem C11_MoveSelectForward_rule (convert : WStringConvert) (client_id : Int)
    (input_action input_type : String) (ops : List Op) :
    let m := reached convert client_id input_action input_type ops
    let r := m.MoveSelectForward
    r.2.text_ = m.text_ ∧
    (m.selection_base_ ≠ m.selection_extent_ ∧ m.selection_cursor_ = m.selection_base_ →
       r.1 = true ∧ r.2.selection_base_ = m.selection_base_ + 1 ∧
       r.2.selection_cursor_ = m.selection_cursor_ + 1 ∧
       r.2.selection_extent_ = m.selection_extent_) ∧
    (¬ (m.selection_base_ ≠ m.selection_extent_ ∧ m.selection_cursor_ = m.selection_base_) →
       m.selection_extent_ < (m.text_.length : Int) →
       r.1 = true ∧ r.2.selection_extent_ = m.selection_extent_ + 1 ∧
       r.2.selection_cursor_ = m.selection_extent_ + 1 ∧
       r.2.selection_base_ = m.selection_base_) ∧
    (¬ (m.selection_base_ ≠ m.selection_extent_ ∧ m.selection_cursor_ = m.selection_base_) →
       ¬ m.selection_extent_ < (m.text_.length : Int) →
       r = (false, m)) := by
  intro m r
  have h : Ordered m := reached_ordered convert client_id input_action input_type ops
  obtain ⟨h0, h1, h2⟩ := h
  refine ⟨?_, fun hc => ?_, fun hc hlt => ?_, fun hc hge => ?_⟩
  · simp only [r, TextInputModel.MoveSelectForward]
    split
    · rfl
    · split <;> rfl
  · simp only [r, TextInputModel.MoveSelectForward, if_pos hc, and_self]
  · have he : m.selection_extent_ ≠ u32_end m.text_ := by
      simp only [u32_end]; omega
    simp only [r, TextInputModel.MoveSelectForward, if_neg hc, if_pos he, and_self]
  · have he : ¬ m.selection_extent_ ≠ u32_end m.text_ := by
      simp only [u32_end]; omega
    simp only [r, TextInputModel.MoveSelectForward, if_neg hc, if_neg he]

/-- Witness for C11 on "abc": with `[0, 2)` selected and the cursor moved onto
the base, base goes to 1; with the caret at 1, extent goes to 2; with the caret
at 3 nothing moves. -/
theorem C11_MoveSelectForward_rule_witness :
    (let m := reached codecvt_utf8 0 "" ""
       [.SetEditingState 1 2 (u32 "abc"), .MoveSelectBack, .MoveSelectBack]
     (m.selection_base_ ≠ m.selection_extent_ ∧ m.selection_cursor_ = m.selection_base_) ∧
       m.MoveSelectForward.1 = true ∧ m.MoveSelectForward.2.selection_base_ = 1 ∧
       m.MoveSelectForward.2.selection_cursor_ = 1 ∧
       m.MoveSelectForward.2.selection_extent_ = 1) ∧
    (let m := reached codecvt_utf8 0 "" "" [.SetEditingState 1 1 (u32 "abc")]
     (¬ (m.selection_base_ ≠ m.selection_extent_ ∧
           m.selection_cursor_ = m.selection_base_) ∧
         m.selection_extent_ < (m.text_.length : Int)) ∧
       m.MoveSelectForward.1 = true ∧ m.MoveSelectForward.2.selection_extent_ = 2 ∧
       m.MoveSelectForward.2.selection_cursor_ = 2 ∧
       m.MoveSelectForward.2.selection_base_ = 1) ∧
    (let m := reached codecvt_utf8 0 "" "" [.SetEditingState 3 3 (u32 "abc")]
     (¬ (m.selection_base_ ≠ m.selection_extent_ ∧
           m.selection_cursor_ = m.selection_base_) ∧
         ¬ m.selection_extent_ < (m.text_.length : Int)) ∧
       m.MoveSelectForward = (false, m)) :=
  ⟨⟨by decide,
      (C11_MoveSelectForward_rule codecvt_utf8 0 "" ""
        [.SetEditingState 1 2 (u32 "abc"), .MoveSelectBack, .MoveSelectBack]).2.1
        (by decide)⟩,
    ⟨by decide,
      (C11_MoveSelectForward_rule codecvt_utf8 0 "" ""
        [.SetEditingState 1 1 (u32 "abc")]).2.2.1 (by decide) (by decide)⟩,
    ⟨by decide,
      (C11_MoveSelectForward_rule codecvt_utf8 0 "" ""
        [.SetEditingState 3 3 (u32 "abc")]).2.2.2 (by decide) (by decide)⟩⟩

/-- C12: `MoveSelectBack()` in every reached state; the text never changes. If
base != extent and cursor = extent, extent and cursor each go down by one, base
stays, and it returns true. Otherwise, if base > 0, base goes down by one,
cursor becomes the new base, extent stays, and it returns true. Otherwise it
returns false and the model is unchanged. -/
theorem C12_MoveSelectBack_rule (convert : WStringConvert) (client_id : Int)
    (input_action input_type : String) (ops : List Op) :
    let m := reached convert client_id input_action input_type ops
    let r := m.MoveSelectBack
    r.2.text_ = m.text_ ∧
    (m.selection_base_ ≠ m.selection_extent_ ∧ m.selection_cursor_ = m.selection_extent_ →
       r.1 = true ∧ r.2.selection_extent_ = m.selection_extent_ - 1 ∧
       r.2.selection_cursor_ = m.selection_cursor_ - 1 ∧
       r.2.selection_base_ = m.selection_base_) ∧
    (¬ (m.selection_base_ ≠ m.selection_extent_ ∧ m.selection_cursor_ = m.selection_extent_) →
       0 < m.selection_base_ →
       r.1 = true ∧ r.2.selection_base_ = m.selection_base_ - 1 ∧
       r.2.selection_cursor_ = m.selection_base_ - 1 ∧
       r.2.selection_extent_ = m.selection_extent_) ∧
    (¬ (m.selection_base_ ≠ m.selection_extent_ ∧ m.selection_cursor_ = m.selection_extent_) →
       ¬ 0 < m.selection_base_ →
       r = (false, m)) := by
  intro m r
  have h : Ordered m := reached_ordered convert client_id input_action input_type ops
  obtain ⟨h0, h1, h2⟩ := h
  refine ⟨?_, fun hc => ?_, fun hc hlt => ?_, fun hc hge => ?_⟩
  · simp only [r, TextInputModel.MoveSelectBack]
    split
    · rfl
    · split <;> rfl
  · simp only [r, TextInputModel.MoveSelectBack, if_pos hc, and_self]
  · have he : m.selection_base_ ≠ u32_begin m.text_ := by
      simp only [u32_begin]; omega
    simp only [r, TextInputModel.MoveSelectBack, if_neg hc, if_pos he, and_self]
  · have he : ¬ m.selection_base_ ≠ u32_begin m.text_ := by
      simp only [u32_begin]; omega
    simp only [r, TextInputModel.MoveSelectBack, if_neg hc, if_neg he]

/-- Witness for C12 on "abc": with `[1, 3)` selected and the cursor on the
extent, extent goes to 2; with the caret at 2, base goes to 1; with the caret
at 0 nothing moves. -/
theorem C12_MoveSelectBack_rule_witness :
    (let m := reached codecvt_utf8 0 "" "" [.SetEditingState 1 3 (u32 "abc")]
     (m.selection_base_ ≠ m.selection_extent_ ∧
         m.selection_cursor_ = m.selection_extent_) ∧
       m.MoveSelectBack.1 = true ∧ m.MoveSelectBack.2.selection_extent_ = 2 ∧
       m.MoveSelectBack.2.selection_cursor_ = 2 ∧
       m.MoveSelectBack.2.selection_base_ = 1) ∧
    (let m := reached codecvt_utf8 0 "" "" [.SetEditingState 2 2 (u32 "abc")]
     (¬ (m.selection_base_ ≠ m.selection_extent_ ∧
           m.selection_cursor_ = m.selection_extent_) ∧ 0 < m.selection_base_) ∧
       m.MoveSelectBack.1 = true ∧ m.MoveSelectBack.2.selection_base_ = 1 ∧
       m.MoveSelectBack.2.selection_cursor_ = 1 ∧
       m.MoveSelectBack.2.selection_extent_ = 2) ∧
    (let m := reached codecvt_utf8 0 "" "" [.SetEditingState 0 0 (u32 "abc")]
     (¬ (m.selection_base_ ≠ m.selection_extent_ ∧
           m.selection_cursor_ = m.selection_extent_) ∧ ¬ 0 < m.selection_base_) ∧
       m.MoveSelectBack = (false, m)) :=
  ⟨⟨by decide,
      (C12_MoveSelectBack_rule codecvt_utf8 0 "" ""
        [.SetEditingState 1 3 (u32 "abc")]).2.1 (by decide)⟩,
    ⟨by decide,
      (C12_MoveSelectBack_rule codecvt_utf8 0 "" ""
        [.SetEditingState 2 2 (u32 "abc")]).2.2.1 (by decide) (by decide)⟩,
    ⟨by decide,
      (C12_MoveSelectBack_rule codecvt_utf8 0 "" ""
        [.SetEditingState 0 0 (u32 "abc")]).2.2.2 (by decide) (by decide)⟩⟩

/-- C13: from a reached state with base = extent = p and room for `k >= 1`
steps (`p + k <= len(text)`), `k` successive `MoveSelectForward()` calls all
return true and end with base = p, extent = p + k, cursor = p + k; a following
`MoveSelectBack()` returns true and takes the extent back to `p + k - 1`, base
still `p`. -/
theorem C13_directional_extend (convert : WStringConvert) (client_id : Int)
    (input_action input_type : String) (ops : List Op) (k : Nat)
    (hcaret : (reached convert client_id input_action input_type ops).selection_base_
      = (reached convert client_id input_action input_type ops).selection_extent_)
    (hk : 1 ≤ k)
    (hroom : (reached convert client_id input_action input_type ops).selection_base_ + (k : Int)
      ≤ ((reached convert client_id input_action input_type ops).text_.length : Int)) :
    let m := reached convert client_id input_action input_type ops
    let fwd := fun s : TextInputModel => s.MoveSelectForward.2
    (∀ j : Nat, j < k → (fwd^[j] m).MoveSelectForward.1 = true) ∧
    (fwd^[k] m).text_ = m.text_ ∧
    (fwd^[k] m).selection_base_ = m.selection_base_ ∧
    (fwd^[k] m).selection_extent_ = m.selection_base_ + (k : Int) ∧
    (fwd^[k] m).selection_cursor_ = m.selection_base_ + (k : Int) ∧
    (fwd^[k] m).MoveSelectBack.1 = true ∧
    (fwd^[k] m).MoveSelectBack.2.selection_extent_ = m.selection_base_ + (k : Int) - 1 ∧
    (fwd^[k] m).MoveSelectBack.2.selection_base_ = m.selection_base_ := by
  intro m fwd
  have hce : m.selection_base_ = m.selection_extent_ := hcaret
  have hroom' : m.selection_extent_ + (k : Int) ≤ (m.text_.length : Int) := by
    rw [← hce]; exact hroom
  have hkz : k ≠ 0 := by omega
  have hend := iterate_MoveSelectForward m hce k hroom'
  refine ⟨fun j hj => ?_, ?_⟩
  · have hj' : m.selection_extent_ + (j : Int) ≤ (m.text_.length : Int) := by omega
    have hmid := iterate_MoveSelectForward m hce j hj'
    have hstep := MoveSelectForward_extend (fwd^[j] m)
      (by
        rw [hmid]
        by_cases hz : j = 0
        · left
          simp only [hz, Nat.cast_zero, add_zero]
          exact hce
        · right
          simp only [if_neg hz, and_true]
          omega)
      (by rw [hmid]; simp only; omega)
    rw [hstep]
  · have hfin : fwd^[k] m = _ := hend
    rw [hfin]
    have hc : ¬ m.selection_base_ = m.selection_extent_ + (k : Int) := by omega
    simp only [if_neg hkz, TextInputModel.MoveSelectBack, ne_eq, and_true, hc,
      not_false_eq_true, if_true, true_and]
    refine ⟨?_, ?_, ?_⟩ <;> omega

/-- Witness for C13: "abc" with base = extent = 1 and k = 2: two
`MoveSelectForward()` give extent 3, then `MoveSelectBack()` gives extent 2 and
base 1. -/
theorem C13_directional_extend_witness :
    let m := reached codecvt_utf8 0 "" "" [.SetEditingState 1 1 (u32 "abc")]
    (m.selection_base_ = m.selection_extent_ ∧ m.selection_base_ = 1 ∧
      m.selection_base_ + ((2 : Nat) : Int) ≤ (m.text_.length : Int)) ∧
    m.MoveSelectForward.1 = true ∧ m.MoveSelectForward.2.MoveSelectForward.1 = true ∧
    m.MoveSelectForward.2.MoveSelectForward.2.selection_extent_ = 3 ∧
    m.MoveSelectForward.2.MoveSelectForward.2.selection_cursor_ = 3 ∧
    m.MoveSelectForward.2.MoveSelectForward.2.selection_base_ = 1 ∧
    m.MoveSelectForward.2.MoveSelectForward.2.MoveSelectBack.1 = true ∧
    m.MoveSelectForward.2.MoveSelectForward.2.MoveSelectBack.2.selection_extent_ = 2 ∧
    m.MoveSelectForward.2.MoveSelectForward.2.MoveSelectBack.2.selection_base_ = 1 :=
  have h := C13_directional_extend codecvt_utf8 0 "" "" [.SetEditingState 1 1 (u32 "abc")] 2
    (by decide) (by decide) (by decide)
  ⟨⟨by decide, by decide, by decide⟩, h.1 0 (by decide), h.1 1 (by decide),
    h.2.2.2.1, h.2.2.2.2.1, h.2.2.1, h.2.2.2.2.2.1, h.2.2.2.2.2.2.1, h.2.2.2.2.2.2.2⟩

/-- C14: caret movement in every reached state; the text never changes.
`MoveCursorForward()` with base != extent sets base to extent and returns true;
with base = extent < len(text) it moves both up by one and returns true; with
base = extent = len(text) it returns false and changes nothing.
`MoveCursorBack()` with base != extent sets extent to base and returns true;
with base = extent > 0 it moves both down by one and returns true; with base =
extent = 0 it returns false and changes nothing. -/
theorem C14_caret_movement (convert : WStringConvert) (client_id : Int)
    (input_action input_type : String) (ops : List Op) :
    let m := reached convert client_id input_action input_type ops
    let f := m.MoveCursorForward
    let b := m.MoveCursorBack
    (f.2.text_ = m.text_ ∧ b.2.text_ = m.text_) ∧
    (m.selection_base_ ≠ m.selection_extent_ →
       f = (true, { m with selection_base_ := m.selection_extent_ })) ∧
    (m.selection_base_ = m.selection_extent_ →
       m.selection_extent_ < (m.text_.length : Int) →
       f.1 = true ∧ f.2.selection_base_ = m.selection_base_ + 1 ∧
       f.2.selection_extent_ = m.selection_extent_ + 1 ∧
       f.2.selection_cursor_ = m.selection_cursor_) ∧
    (m.selection_base_ = m.selection_extent_ →
       m.selection_extent_ = (m.text_.length : Int) → f = (false, m)) ∧
    (m.selection_base_ ≠ m.selection_extent_ →
       b = (true, { m with selection_extent_ := m.selection_base_ })) ∧
    (m.selection_base_ = m.selection_extent_ → 0 < m.selection_base_ →
       b.1 = true ∧ b.2.selection_base_ = m.selection_base_ - 1 ∧
       b.2.selection_extent_ = m.selection_extent_ - 1 ∧
       b.2.selection_cursor_ = m.selection_cursor_) ∧
    (m.selection_base_ = m.selection_extent_ → m.selection_base_ = 0 →
       b = (false, m)) := by
  intro m f b
  refine ⟨⟨?_, ?_⟩, fun hne => ?_, fun heq hlt => ?_, fun heq hend => ?_,
    fun hne => ?_, fun heq hpos => ?_, fun heq hz => ?_⟩
  · simp only [f, TextInputModel.MoveCursorForward]
    split
    · rfl
    · split <;> rfl
  · simp only [b, TextInputModel.MoveCursorBack]
    split
    · rfl
    · split <;> rfl
  · simp only [f, TextInputModel.MoveCursorForward, if_pos hne]
  · have hne : ¬ m.selection_base_ ≠ m.selection_extent_ := fun hc => hc heq
    have he : m.selection_extent_ ≠ u32_end m.text_ := by
      simp only [u32_end]; omega
    simp only [f, TextInputModel.MoveCursorForward, if_neg hne, if_pos he, and_self]
  · have hne : ¬ m.selection_base_ ≠ m.selection_extent_ := fun hc => hc heq
    have he : ¬ m.selection_extent_ ≠ u32_end m.text_ := by
      simp only [u32_end]; omega
    simp only [f, TextInputModel.MoveCursorForward, if_neg hne, if_neg he]
  · simp only [b, TextInputModel.MoveCursorBack, if_pos hne]
  · have hne : ¬ m.selection_base_ ≠ m.selection_extent_ := fun hc => hc heq
    have he : m.selection_base_ ≠ u32_begin m.text_ := by
      simp only [u32_begin]; omega
    simp only [b, TextInputModel.MoveCursorBack, if_neg hne, if_pos he, and_self]
  · have hne : ¬ m.selection_base_ ≠ m.selection_extent_ := fun hc => hc heq
    have he : ¬ m.selection_base_ ≠ u32_begin m.text_ := by
      simp only [u32_begin]; omega
    simp only [b, TextInputModel.MoveCursorBack, if_neg hne, if_neg he]

/-- Witness for C14 on "abc": with `[1, 3)` selected, forward collapses to 3
and back collapses to 1; with the caret at 1, forward gives 2 and back gives 0;
with the caret at 3 forward does nothing; with the caret at 0 back does
nothing. -/
theorem C14_caret_movement_witness :
    (let m := reached codecvt_utf8 0 "" "" [.SetEditingState 1 3 (u32 "abc")]
     m.selection_base_ ≠ m.selection_extent_ ∧
       m.MoveCursorForward = (true, { m with selection_base_ := 3 }) ∧
       m.MoveCursorBack = (true, { m with selection_extent_ := 1 })) ∧
    (let m := reached codecvt_utf8 0 "" "" [.SetEditingState 1 1 (u32 "abc")]
     (m.selection_base_ = m.selection_extent_ ∧
         m.selection_extent_ < (m.text_.length : Int) ∧ 0 < m.selection_base_) ∧
       (m.MoveCursorForward.1 = true ∧ m.MoveCursorForward.2.selection_base_ = 2 ∧
         m.MoveCursorForward.2.selection_extent_ = 2) ∧
       (m.MoveCursorBack.1 = true ∧ m.MoveCursorBack.2.selection_base_ = 0 ∧
         m.MoveCursorBack.2.selection_extent_ = 0)) ∧
    (let m := reached codecvt_utf8 0 "" "" [.SetEditingState 3 3 (u32 "abc")]
     (m.selection_base_ = m.selection_extent_ ∧
         m.selection_extent_ = (m.text_.length : Int)) ∧
       m.MoveCursorForward = (false, m)) ∧
    (let m := reached codecvt_utf8 0 "" "" [.SetEditingState 0 0 (u32 "abc")]
     (m.selection_base_ = m.selection_extent_ ∧ m.selection_base_ = 0) ∧
       m.MoveCursorBack = (false, m)) :=
  ⟨⟨by decide,
      (C14_caret_movement codecvt_utf8 0 "" ""
        [.SetEditingState 1 3 (u32 "abc")]).2.1 (by decide),
      (C14_caret_movement codecvt_utf8 0 "" ""
        [.SetEditingState 1 3 (u32 "abc")]).2.2.2.2.1 (by decide)⟩,
    ⟨by decide,
      ⟨((C14_caret_movement codecvt_utf8 0 "" ""
        [.SetEditingState 1 1 (u32 "abc")]).2.2.1 (by decide) (by decide)).1,
        by decide, by decide⟩,
      ⟨((C14_caret_movement codecvt_utf8 0 "" ""
        [.SetEditingState 1 1 (u32 "abc")]).2.2.2.2.2.1 (by decide) (by decide)).1,
        by decide, by decide⟩⟩,
    ⟨by decide,
      (C14_caret_movement codecvt_utf8 0 "" ""
        [.SetEditingState 3 3 (u32 "abc")]).2.2.2.1 (by decide) (by decide)⟩,
    ⟨by decide,
      (C14_caret_movement codecvt_utf8 0 "" ""
        [.SetEditingState 0 0 (u32 "abc")]).2.2.2.2.2.2 (by decide) (by decide)⟩⟩

/-- C15, as stated, fails for `SelectAll()`: on "abc" already selected as
`[0, 3)` it returns true although text, base and extent (and the cursor) are
exactly as before. It also fails for `Insert` once the converter reads a
non-empty input as an empty run, as a library that drops a truncated sequence
does with the lone byte DC: `Insert` returns true and the model is unchanged. -/
theorem C15_SelectAll_true_without_change :
    (let m := reached codecvt_utf8 0 "" "" [.SetEditingState 0 3 (u32 "abc")]
     m.SelectAll.1 = true ∧
       (m.SelectAll.2.text_, m.SelectAll.2.selection_base_, m.SelectAll.2.selection_extent_)
         = (m.text_, m.selection_base_, m.selection_extent_) ∧
       m.SelectAll.2.selection_cursor_ = m.selection_cursor_) ∧
    (let dropping : WStringConvert :=
       ⟨fun bytes => if bytes = [0xDC] then some [] else codecvt_utf8.from_bytes bytes,
        codecvt_utf8.to_bytes⟩
     let m := reached dropping 0 "" "" [.SetEditingState 1 1 (u32 "abc")]
     m.Insert dropping [0xDC] = some (true, m)) :=
  ⟨by decide, rfl⟩

/-- C15, amended: in every reached state `Backspace()` and `Delete()` return
true exactly when text, base or extent differ after the call. `Insert` returns
true exactly when its input is non-empty: a change implies true, and for an
input that decodes to at least one code unit true is returned exactly when
text, base or extent differ. `SelectAll()` returns true exactly when the text
is non-empty: a change implies true, and false leaves the model as it was. -/
theorem C15_change_reporting (convert : WStringConvert) (client_id : Int)
    (input_action input_type : String) (ops : List Op) :
    let m := reached convert client_id input_action input_type ops
    let visible := fun s : TextInputModel => (s.text_, s.selection_base_, s.selection_extent_)
    (∀ (bytes : List Nat) (r : Bool × TextInputModel), m.Insert convert bytes = some r →
       (r.1 = true ↔ bytes ≠ []) ∧
       (visible r.2 ≠ visible m → r.1 = true) ∧
       (∀ cs : List Nat, convert.from_bytes bytes = some cs → cs ≠ [] →
         (r.1 = true ↔ visible r.2 ≠ visible m))) ∧
    (m.Backspace.1 = true ↔ visible m.Backspace.2 ≠ visible m) ∧
    (m.Delete.1 = true ↔ visible m.Delete.2 ≠ visible m) ∧
    (m.SelectAll.1 = true ↔ m.text_ ≠ []) ∧
    (visible m.SelectAll.2 ≠ visible m → m.SelectAll.1 = true) ∧
    (m.SelectAll.1 = false → m.SelectAll.2 = m) := by
  intro m visible
  have h : Ordered m := reached_ordered convert client_id input_action input_type ops
  refine ⟨fun bytes r hr => Insert_reports convert bytes m h r hr,
    Backspace_reports m, Delete_reports m h, ?_, ?_, ?_⟩
  · by_cases he : m.text_ = []
    · have hi : ¬ ¬ m.text_.isEmpty = true := by
        rw [List.isEmpty_iff]; exact fun hc => hc he
      have hr : m.SelectAll = (false, m) := by
        simp only [TextInputModel.SelectAll, if_neg hi]
      rw [hr]
      exact ⟨fun hc => (by cases hc), fun hc => absurd he hc⟩
    · have hi : ¬ m.text_.isEmpty = true := by
        rw [List.isEmpty_iff]; exact he
      have hr : m.SelectAll.1 = true := by
        simp only [TextInputModel.SelectAll, if_pos hi]
      exact ⟨fun _ => he, fun _ => hr⟩
  · intro hch
    by_cases hi : ¬ m.text_.isEmpty = true
    · simp only [TextInputModel.SelectAll, if_pos hi]
    · exact absurd (by simp only [visible, TextInputModel.SelectAll, if_neg hi]) hch
  · intro hf
    by_cases hi : ¬ m.text_.isEmpty = true
    · simp only [TextInputModel.SelectAll, if_pos hi, Bool.true_eq_false] at hf
    · simp only [TextInputModel.SelectAll, if_neg hi]

/-- Witness for C15 (amended), with the UTF-8 converter: on "abc" with the
caret at 1, `Backspace()` and `Delete()` return true with a changed text, and
`Insert("A")`, whose input decodes to one code unit, returns true and leaves
"aAbc". -/
theorem C15_change_reporting_witness :
    let m := reached codecvt_utf8 0 "" "" [.SetEditingState 1 1 (u32 "abc")]
    let visible := fun s : TextInputModel => (s.text_, s.selection_base_, s.selection_extent_)
    (m.Backspace.1 = true ↔ visible m.Backspace.2 ≠ visible m) ∧
      m.Backspace.1 = true ∧ m.Backspace.2.text_ = u32 "bc" ∧
      (m.Delete.1 = true ↔ visible m.Delete.2 ≠ visible m) ∧
      m.Delete.1 = true ∧ m.Delete.2.text_ = u32 "ac" ∧
      ∃ r, m.Insert codecvt_utf8 [0x41] = some r ∧
        (codecvt_utf8.from_bytes [0x41] = some [0x41] ∧ ([0x41] : List Nat) ≠ []) ∧
        (r.1 = true ↔ visible r.2 ≠ visible m) ∧
        r.1 = true ∧ r.2.text_ = u32 "aAbc" :=
  have h := C15_change_reporting codecvt_utf8 0 "" "" [.SetEditingState 1 1 (u32 "abc")]
  ⟨h.2.1, by decide, by decide, h.2.2.1, by decide, by decide,
    _, rfl, ⟨by decide, by decide⟩,
    (h.1 [0x41] _ rfl).2.2 [0x41] (by decide) (by decide), rfl, by decide⟩

/-- C16, as stated, fails in two ways. After `AddCharacter(0x110000)` the text
holds a value above U+10FFFF, `to_bytes` throws and `GetState()` returns
nothing. And with a text of 2^31 code units and the caret at its end, the
selection base field is `static_cast<int>(2^31) = -2147483648`, not the offset
2147483648. -/
theorem C16_GetState_throws_or_narrows :
    (reached codecvt_utf8 0 "" "" [.AddCharacter 0x110000]).GetState codecvt_utf8 = none ∧
    (let m := reached codecvt_utf8 0 "" ""
       [.SetEditingState 2147483648 2147483648 (List.replicate 2147483648 97)]
     m.selection_base_ = 2147483648 ∧
       ∃ es, m.GetState codecvt_utf8 = some (.array [.int 0, es]) ∧
         es.member kSelectionBaseKey = some (.int (-2147483648))) := by
  have hc : static_cast_int ((2147483648 : Nat) : Int) = -2147483648 := by decide
  obtain ⟨h1, es, h2, h3⟩ := GetState_caret_at_end 0 "" "" 2147483648 97 (by decide)
  exact ⟨rfl, h1, es, h2, h3.trans (by rw [hc])⟩

/-- C16, amended: `GetState()` is `const`, so it writes no member. In every
reached state whose text `to_bytes` converts and which has fewer than 2^31
code units, it returns a two-element array: the client id given at
construction, then an object with composing base -1, composing extent -1,
selection base and selection extent equal to the offsets of `selection_base_`
and `selection_extent_`, and selection-is-directional false. -/
theorem C16_GetState_projection (convert : WStringConvert) (client_id : Int)
    (input_action input_type : String) (ops : List Op) (bytes : List Nat)
    (hbytes : convert.to_bytes (reached convert client_id input_action input_type ops).text_
      = some bytes)
    (hlen : (reached convert client_id input_action input_type ops).text_.length < 2 ^ 31) :
    let m := reached convert client_id input_action input_type ops
    ∃ es, m.GetState convert = some (.array [.int client_id, es]) ∧
      es.member kComposingBaseKey = some (.int (-1)) ∧
      es.member kComposingExtentKey = some (.int (-1)) ∧
      es.member kSelectionBaseKey = some (.int m.selection_base_) ∧
      es.member kSelectionExtentKey = some (.int m.selection_extent_) ∧
      es.member kSelectionIsDirectionalKey = some (.bool false) ∧
      es.member kTextKey = some (.string bytes) := by
  intro m
  have h : Ordered m := reached_ordered convert client_id input_action input_type ops
  obtain ⟨h0, h1, h2⟩ := h
  have hl : (m.text_.length : Int) < 2 ^ 31 := by exact_mod_cast hlen
  have hcid : m.client_id_ = client_id :=
    reached_client_id convert client_id input_action input_type ops
  have hsb := static_cast_int_id m.selection_base_ h0 (by omega)
  have hse := static_cast_int_id m.selection_extent_ (by omega) (by omega)
  have hg := GetState_eq convert m bytes hbytes
  rw [hcid, hsb, hse] at hg
  exact ⟨_, hg, rfl, rfl, rfl, rfl, rfl, rfl⟩

/-- Witness for C16 (amended): client 7, "abc" with `[1, 2)` selected. -/
theorem C16_GetState_projection_witness :
    let m := reached codecvt_utf8 7 "" "" [.SetEditingState 1 2 (u32 "abc")]
    (codecvt_utf8.to_bytes m.text_ = some [97, 98, 99] ∧ m.text_.length < 2 ^ 31) ∧
    ∃ es, m.GetState codecvt_utf8 = some (.array [.int 7, es]) ∧
      es.member kComposingBaseKey = some (.int (-1)) ∧
      es.member kComposingExtentKey = some (.int (-1)) ∧
      es.member kSelectionBaseKey = some (.int 1) ∧
      es.member kSelectionExtentKey = some (.int 2) ∧
      es.member kSelectionIsDirectionalKey = some (.bool false) ∧
      es.member kTextKey = some (.string [97, 98, 99]) :=
  ⟨⟨by decide, by decide⟩,
    C16_GetState_projection codecvt_utf8 7 "" "" [.SetEditingState 1 2 (u32 "abc")]
      [97, 98, 99] (by decide) (by decide)⟩

/-- C17, as stated, fails: the selection affinity field `GetState()` returns
is the string "TextAffinity.downstream", which is not the string
"downstream". -/
theorem C17_affinity_is_not_downstream :
    ∃ es, (TextInputModel.new 0 "" "").GetState codecvt_utf8 = some (.array [.int 0, es]) ∧
      es.member kSelectionAffinityKey = some (.string (c_str "TextAffinity.downstream")) ∧
      es.member kSelectionAffinityKey ≠ some (.string (c_str "downstream")) :=
  ⟨_, rfl, rfl, fun h =>
    absurd (JsonValue.string.inj (Option.some.inj h)) (by decide)⟩

/-- C17, amended: for every state, the selection affinity field of the
editing-state object `GetState()` returns is the fixed string
"TextAffinity.downstream", whatever the selection. -/
theorem C17_affinity_sentinel (convert : WStringConvert) (m : TextInputModel)
    (j : JsonValue) (h : m.GetState convert = some j) :
    ∃ es, j = .array [.int m.client_id_, es] ∧
      es.member kSelectionAffinityKey = some (.string (c_str "TextAffinity.downstream")) := by
  obtain ⟨bytes, hb⟩ := GetState_some convert m j h
  rw [GetState_eq convert m bytes hb] at h
  cases h
  exact ⟨_, rfl, rfl⟩

/-- Witness for C17 (amended): "abc" with `[1, 2)` selected. -/
theorem C17_affinity_sentinel_witness :
    let m := reached codecvt_utf8 7 "" "" [.SetEditingState 1 2 (u32 "abc")]
    ∃ j, m.GetState codecvt_utf8 = some j ∧
      ∃ es, j = .array [.int m.client_id_, es] ∧
        es.member kSelectionAffinityKey = some (.string (c_str "TextAffinity.downstream")) :=
  ⟨_, rfl, C17_affinity_sentinel codecvt_utf8
    (reached codecvt_utf8 7 "" "" [.SetEditingState 1 2 (u32 "abc")]) _ rfl⟩

/-- C18: for every non-empty well-formed UTF-8 byte string `s` (a
concatenation of the well-formed byte sequences, 4-byte forms of non-BMP
scalar values included), the decoder accepts `s` and reads a non-empty run
`cs` of Unicode scalar values; on a freshly constructed model `Insert(s)`
returns true and leaves the text `cs`; and `GetState()` then returns an object
whose text field is exactly `s`: the encoder used by `GetState` undoes the
decoder used by `Insert`. -/
theorem C18_utf8_round_trip (client_id : Int) (input_action input_type : String)
    (s : List Nat) (hs : s ≠ []) (hwf : well_formed_utf8 s = true) :
    ∃ cs, codecvt_utf8.from_bytes s = some cs ∧ cs ≠ [] ∧
      (∀ c ∈ cs, c < 0x110000 ∧ ¬ (0xD800 ≤ c ∧ c < 0xE000)) ∧
      codecvt_utf8.to_bytes cs = some s ∧
      ∃ m', (TextInputModel.new client_id input_action input_type).Insert codecvt_utf8 s
          = some (true, m') ∧
        m'.text_ = cs ∧
        ∃ es, m'.GetState codecvt_utf8 = some (.array [.int client_id, es]) ∧
          es.member kTextKey = some (.string s) := by
  obtain ⟨cs, hdec⟩ := utf8_decode_accepts s.length s (le_refl _) hwf
  have hrt : codecvt_utf8.to_bytes cs = some s := utf8_encode_decode s.length s cs hdec
  have hnew : Ordered (TextInputModel.new client_id input_action input_type) := by
    simp [Ordered, TextInputModel.new, u32_begin]
  have hins := Insert_eq codecvt_utf8 s cs _ hs hdec hnew
  refine ⟨cs, hdec, codecvt_utf8_from_bytes_ne_nil s cs hs hdec,
    utf8_encode_scalar cs s hrt, hrt, _, hins, ?_, ?_⟩
  · simp [TextInputModel.new]
  · have htext : (List.take (TextInputModel.new client_id input_action input_type).selection_base_.toNat
        (TextInputModel.new client_id input_action input_type).text_ ++ cs ++
        List.drop (TextInputModel.new client_id input_action input_type).selection_extent_.toNat
          (TextInputModel.new client_id input_action input_type).text_) = cs := by
      simp [TextInputModel.new]
    refine ⟨_, GetState_eq codecvt_utf8 _ s (by rw [htext]; exact hrt), rfl⟩

/-- Witness for C18: the four bytes F0 9F 98 80 of U+1F600 after "a" and the
two bytes C3 A9 of U+00E9. -/
theorem C18_utf8_round_trip_witness :
    (([0x61, 0xC3, 0xA9, 0xF0, 0x9F, 0x98, 0x80] : List Nat) ≠ [] ∧
      well_formed_utf8 [0x61, 0xC3, 0xA9, 0xF0, 0x9F, 0x98, 0x80] = true) ∧
    codecvt_utf8.from_bytes [0x61, 0xC3, 0xA9, 0xF0, 0x9F, 0x98, 0x80]
      = some [0x61, 0xE9, 0x1F600] ∧
    ∃ cs, codecvt_utf8.from_bytes [0x61, 0xC3, 0xA9, 0xF0, 0x9F, 0x98, 0x80] = some cs ∧
      cs ≠ [] ∧
      (∀ c ∈ cs, c < 0x110000 ∧ ¬ (0xD800 ≤ c ∧ c < 0xE000)) ∧
      codecvt_utf8.to_bytes cs = some [0x61, 0xC3, 0xA9, 0xF0, 0x9F, 0x98, 0x80] ∧
      ∃ m', (TextInputModel.new 0 "" "").Insert codecvt_utf8
            [0x61, 0xC3, 0xA9, 0xF0, 0x9F, 0x98, 0x80]
          = some (true, m') ∧
        m'.text_ = cs ∧
        ∃ es, m'.GetState codecvt_utf8 = some (.array [.int 0, es]) ∧
          es.member kTextKey = some (.string [0x61, 0xC3, 0xA9, 0xF0, 0x9F, 0x98, 0x80]) :=
  ⟨⟨by decide, by decide⟩, by decide,
    C18_utf8_round_trip 0 "" "" [0x61, 0xC3, 0xA9, 0xF0, 0x9F, 0x98, 0x80]
      (by decide) (by decide)⟩

/-- C19: in every reached state `selection_base_ <= selection_extent_`, inside
`[0, len(text)]`: the range given to `erase` in `DeleteSelected` and to the
range constructor in `GetSelected` is well ordered, `min(base, extent)` is base
and `max(base, extent)` is extent; in particular neither `MoveSelectBack()` nor
`MoveSelectForward()` reverses the pair. -/
theorem C19_base_le_extent (convert : WStringConvert) (client_id : Int)
    (input_action input_type : String) (ops : List Op) :
    let m := reached convert client_id input_action input_type ops
    (0 ≤ m.selection_base_ ∧ m.selection_base_ ≤ m.selection_extent_ ∧
      m.selection_extent_ ≤ (m.text_.length : Int)) ∧
    min m.selection_base_ m.selection_extent_ = m.selection_base_ ∧
    max m.selection_base_ m.selection_extent_ = m.selection_extent_ ∧
    m.MoveSelectBack.2.selection_base_ ≤ m.MoveSelectBack.2.selection_extent_ ∧
    m.MoveSelectForward.2.selection_base_ ≤ m.MoveSelectForward.2.selection_extent_ := by
  intro m
  have h : Ordered m := reached_ordered convert client_id input_action input_type ops
  have hb : Ordered (Op.MoveSelectBack.apply convert m) :=
    apply_ordered convert .MoveSelectBack m h
  have hf : Ordered (Op.MoveSelectForward.apply convert m) :=
    apply_ordered convert .MoveSelectForward m h
  exact ⟨h, min_eq_left h.2.1, max_eq_right h.2.1, hb.2.1, hf.2.1⟩

/-- C20: in every reached state, if `selection_base_ != selection_extent_`
then `selection_cursor_` is base or extent. Hence, on an active selection,
when `MoveSelectForward()` advances the extent the cursor was on the extent,
and when `MoveSelectBack()` retreats the base the cursor was on the base. -/
theorem C20_cursor_on_end_when_active (convert : WStringConvert) (client_id : Int)
    (input_action input_type : String) (ops : List Op) :
    let m := reached convert client_id input_action input_type ops
    (m.selection_base_ ≠ m.selection_extent_ →
       m.selection_cursor_ = m.selection_base_ ∨
         m.selection_cursor_ = m.selection_extent_) ∧
    (m.selection_base_ ≠ m.selection_extent_ →
       m.MoveSelectForward.2.selection_extent_ = m.selection_extent_ + 1 →
       m.selection_cursor_ = m.selection_extent_) ∧
    (m.selection_base_ ≠ m.selection_extent_ →
       m.MoveSelectBack.2.selection_base_ = m.selection_base_ - 1 →
       m.selection_cursor_ = m.selection_base_) := by
  intro m
  have h : CursorOnEnd m := reached_cursorOnEnd convert client_id input_action input_type ops
  refine ⟨h, fun hne hadv => ?_, fun hne hret => ?_⟩
  · by_cases hc : m.selection_base_ ≠ m.selection_extent_ ∧
        m.selection_cursor_ = m.selection_base_
    · simp only [TextInputModel.MoveSelectForward, if_pos hc] at hadv
      omega
    · cases h hne with
      | inl hb => exact absurd ⟨hne, hb⟩ hc
      | inr he => exact he
  · by_cases hc : m.selection_base_ ≠ m.selection_extent_ ∧
        m.selection_cursor_ = m.selection_extent_
    · simp only [TextInputModel.MoveSelectBack, if_pos hc] at hret
      omega
    · cases h hne with
      | inl hb => exact hb
      | inr he => exact absurd ⟨hne, he⟩ hc

/-- Witness for C20 on "abcd": with `[1, 2)` selected and the cursor on the
extent, `MoveSelectForward()` advances the extent; with `[1, 2)` reached by
extending backwards from 2, the cursor is on the base and `MoveSelectBack()`
retreats the base. -/
theorem C20_cursor_on_end_when_active_witness :
    (let m := reached codecvt_utf8 0 "" "" [.SetEditingState 1 2 (u32 "abcd")]
     (m.selection_base_ ≠ m.selection_extent_ ∧
         m.MoveSelectForward.2.selection_extent_ = m.selection_extent_ + 1) ∧
       m.selection_cursor_ = m.selection_extent_) ∧
    (let m := reached codecvt_utf8 0 "" "" [.SetEditingState 2 2 (u32 "abcd"), .MoveSelectBack]
     (m.selection_base_ ≠ m.selection_extent_ ∧
         m.MoveSelectBack.2.selection_base_ = m.selection_base_ - 1) ∧
       m.selection_cursor_ = m.selection_base_) :=
  ⟨⟨by decide,
      (C20_cursor_on_end_when_active codecvt_utf8 0 "" ""
        [.SetEditingState 1 2 (u32 "abcd")]).2.1 (by decide) (by decide)⟩,
    ⟨by decide,
      (C20_cursor_on_end_when_active codecvt_utf8 0 "" ""
        [.SetEditingState 2 2 (u32 "abcd"), .MoveSelectBack]).2.2 (by decide) (by decide)⟩⟩

end flutter_desktop_embedding
